import Mathlib

/-!
# Verification of the calendar-sync reconciliation engine

Shallow embedding of the `beekhof/calendar-sync` sync engine
(`internal/sync/syncer.go`: `filterEvents`, `isWorkLocationEvent`,
`isOutOfOffice`, `prepareSyncEvent`, `eventsEqual`, `timesEqual`,
`getMeetURL`, `promptForConfirmation`, `checkAndCreateTokenReminder`,
`Syncer.Sync`) together with the calendar-client state semantics of the
repository's own mock client (`mockGoogleCalendarClient` in the sync tests:
`GetEvents` returns the stored list, `InsertEvent` appends,
`UpdateEvent` replaces the first event with the given id, `DeleteEvent`
removes the first event with the given id).

Modelling conventions:
* Go strings are Lean `String`s; a `nil` pointer is `Option.none`;
  a missing map entry yields `""` exactly as a Go map lookup does.
* RFC3339 timestamps are represented already parsed: a civil day number
  (`Int`, day 0 is a Sunday), clock fields, and the zone offset carried by
  the timestamp.  Local civil time is used throughout (no DST transitions),
  matching the arithmetic the Go code performs with `time.Date`/`AddDate`.
* The `UpdateEvent` state transition keeps the stored event's identifier
  (real calendar servers keep the event id on update); everything else
  follows the mock client.
* Go map iteration order is unspecified; the embedding fixes the
  deterministic order in which keys were first inserted, which is one of
  the admissible executions.
-/

namespace CalSync

/-- Substring test, the shallow embedding of Go's `strings.Contains`:
`strings.Contains(s, "")` is `true`, otherwise `pat` must occur in `s`. -/
def charListContains : List Char → List Char → Bool
  | [], pat => pat.isEmpty
  | c :: rest, pat => pat.isPrefixOf (c :: rest) || charListContains rest pat

def strContains (s pat : String) : Bool :=
  charListContains s.data pat.data

/-- `strings.ToLower` (character-wise lowering). -/
def strToLower (s : String) : String :=
  ⟨s.data.map Char.toLower⟩

/-- `strings.TrimSpace`: strip leading and trailing whitespace. -/
def strTrim (s : String) : String :=
  ⟨((s.data.dropWhile Char.isWhitespace).reverse.dropWhile Char.isWhitespace).reverse⟩

/-- A parsed RFC3339 timestamp: civil day (day 0 is a Sunday), clock fields
and the zone offset (minutes) carried by the timestamp.  `Hour()`/`Minute()`
on the parsed Go `time.Time` return the clock fields. -/
structure DateTime where
  day : Int
  hour : Fin 24
  minute : Fin 60
  second : Fin 60
  offset : Int
  deriving DecidableEq, Repr

/-- The instant (seconds since epoch) denoted by a parsed timestamp;
`t.UTC()` comparisons in Go compare exactly this value. -/
def DateTime.instant (t : DateTime) : Int :=
  86400 * t.day + 3600 * t.hour.val + 60 * t.minute.val + t.second.val - 60 * t.offset

/-- Minutes since midnight of the local clock reading, the
`startHour*60 + startMinute` computation of `filterEvents`. -/
def DateTime.minutesOfDay (t : DateTime) : Nat :=
  t.hour.val * 60 + t.minute.val

/-- A Go `*calendar.EventDateTime` value (the pointer itself may be nil,
modelled by wrapping in `Option`).  `date d`: the `Date` field is non-empty
and denotes civil day `d`.  `dateTime raw t`: `Date` empty, `DateTime` is the
non-empty string `raw` and parses to `t`.  `badDateTime raw`: `Date` empty,
`DateTime` is the non-empty string `raw` and fails to parse.  `empty`: both
fields empty. -/
inductive EDT where
  | date (d : Int)
  | dateTime (raw : String) (t : DateTime)
  | badDateTime (raw : String)
  | empty
  deriving DecidableEq, Repr

/-- A Go `*calendar.Event` restricted to the fields the sync engine reads.
`extendedPrivate` is `ExtendedProperties.Private` (`none` when either
pointer is nil); `conference` is `ConferenceData.EntryPoints` as
(entryPointType, uri) pairs (`none` when either pointer is nil). -/
structure Event where
  id : String := ""
  summary : String := ""
  description : String := ""
  location : String := ""
  start : Option EDT := none
  stop : Option EDT := none
  transparency : String := ""
  eventType : String := ""
  recurringEventId : String := ""
  extendedPrivate : Option (List (String × String)) := none
  conference : Option (List (String × String)) := none
  remindersUseDefault : Bool := false
  deriving DecidableEq, Repr

/-- Go map lookup with the zero-value default:
`m["k"]` is `""` when the key is missing. -/
def mapGet (m : List (String × String)) (k : String) : String :=
  match m.find? (fun kv => kv.1 = k) with
  | some kv => kv.2
  | none => ""

/-- The tracking key of a destination event, exactly the Go access pattern
`if e.ExtendedProperties != nil && e.ExtendedProperties.Private != nil
{ workID = e.ExtendedProperties.Private["workEventId"] }` (otherwise `""`). -/
def getWorkID (e : Event) : String :=
  match e.extendedPrivate with
  | none => ""
  | some m => mapGet m "workEventId"

/-- `getMeetURL`: first `video` entry point with a non-empty URI, else `""`. -/
def getMeetURL (e : Event) : String :=
  match e.conference with
  | none => ""
  | some eps =>
    match eps.find? (fun ep => ep.1 = "video" && ep.2 ≠ "") with
    | some ep => ep.2
    | none => ""

/-- `timesEqual` from the source: all-day values compare their `Date`
strings, two parseable `DateTime` values compare instants in UTC, a pair
with at least one unparseable `DateTime` falls back to raw string
comparison, and every other shape combination is unequal. -/
def timesEqual (dt1 dt2 : Option EDT) : Bool :=
  match dt1, dt2 with
  | none, none => true
  | none, some _ => false
  | some _, none => false
  | some e1, some e2 =>
    match e1, e2 with
    | .date d1, .date d2 => d1 = d2
    | .dateTime _ t1, .dateTime _ t2 => t1.instant = t2.instant
    | .dateTime r1 _, .badDateTime r2 => r1 = r2
    | .badDateTime r1, .dateTime r2 _ => r1 = r2
    | .badDateTime r1, .badDateTime r2 => r1 = r2
    | _, _ => false

/-- `eventsEqual` from the source (the verbose-logging parameter is
irrelevant to the result and omitted). -/
def eventsEqual (e1 e2 : Event) : Bool :=
  e1.summary = e2.summary &&
  e1.description = e2.description &&
  e1.location = e2.location &&
  timesEqual e1.start e2.start &&
  timesEqual e1.stop e2.stop &&
  getMeetURL e1 = getMeetURL e2

/-- `prepareSyncEvent`: the destination copy of a source event.  Fields not
assigned in the Go struct literal are zero values. -/
def prepareSyncEvent (src : Event) : Event :=
  { summary := src.summary
    description := src.description
    location := src.location
    start := src.start
    stop := src.stop
    conference := src.conference
    remindersUseDefault := true
    extendedPrivate := some [("workEventId", src.id)] }

/-- `isWorkLocationEvent` from the source. -/
def isWorkLocationEvent (e : Event) : Bool :=
  match e.start with
  | some (.date _) =>
    let summary := strToLower e.summary
    if summary = "" then false
    else if strContains summary "out of office" || strContains summary "oof" then false
    else if strContains summary "office" && !strContains summary "out of" then true
    else
      ["remote", "working from", "work from home", "work from office",
        "wfh", "wfo", "work location"].any (fun pat => strContains summary pat)
  | _ => false

/-- The recurrence-parent lookup a calendar client provides:
`client.GetEvent("primary", id)`.  `some p` models a nil error together with
a non-nil event; `none` models a failed lookup. -/
abbrev ParentLookup := String → Option Event

/-- `isOutOfOffice` from the source: own `EventType`, then (for recurring
instances whose parent lookup succeeds) the parent's `EventType` and
`Transparency`, then the event's own `Transparency`, then title keywords. -/
def isOutOfOffice (e : Event) (client : ParentLookup) : Bool :=
  if e.eventType = "outOfOffice" then true
  else
    let afterParent : Bool :=
      if e.recurringEventId ≠ "" then
        match client e.recurringEventId with
        | some parent =>
          if parent.eventType = "outOfOffice" then true
          else if parent.transparency = "transparent" then true
          else false
        | none => false
      else false
    if afterParent then true
    else if e.transparency = "transparent" then true
    else
      let summary := strToLower e.summary
      ["out of office", "oof", "pto", "vacation", "away"].any
        (fun kw => strContains summary kw)

/-- One step of `filterEvents`: `true` when the event is kept.
Rule 1: all-day events are kept unless they are work-location markers.
Rule 2: timed out-of-office events are dropped.
Rule 3: the event is kept exactly when
`(startMinutes ≥ 360 ∧ startMinutes < 1440) ∨ (endMinutes > 360 ∧
endMinutes ≤ 1440) ∨ (startMinutes < 360 ∧ endMinutes > 1440)`.
Parse failures drop the event.  (A nil `Start`/`End` pointer would make the
Go code panic; the model drops such events, and every theorem below only
involves events with both pointers present.) -/
def keepEvent (client : ParentLookup) (e : Event) : Bool :=
  match e.start with
  | some (.date _) => !isWorkLocationEvent e
  | some (.dateTime _ ts) =>
    if isOutOfOffice e client then false
    else
      match e.stop with
      | some (.dateTime _ te) =>
        let startMinutes := ts.minutesOfDay
        let endMinutes := te.minutesOfDay
        let windowStart := 6 * 60
        let windowEnd := 24 * 60
        (windowStart ≤ startMinutes && startMinutes < windowEnd) ||
        (windowStart < endMinutes && endMinutes ≤ windowEnd) ||
        (startMinutes < windowStart && windowEnd < endMinutes)
      | _ => false
  | some (.badDateTime _) =>
    if isOutOfOffice e client then false else false
  | some .empty =>
    if isOutOfOffice e client then false else false
  | none => false

/-- `filterEvents` from the source, as the order-preserving filter by
`keepEvent`. -/
def filterEvents (client : ParentLookup) (events : List Event) : List Event :=
  events.filter (keepEvent client)

/-! ## Window calculation (`Sync`, time-window block) -/

/-- Go `time.Weekday()`: 0 is Sunday, …, 6 is Saturday.  Civil day 0 of the
embedding is a Sunday. -/
def goWeekday (d : Int) : Int := d % 7

/-- `weekday := int(now.Weekday()); if weekday == 0 { weekday = 7 };
daysFromMonday := weekday - 1`. -/
def daysFromMonday (d : Int) : Int :=
  (if goWeekday d = 0 then 7 else goWeekday d) - 1

/-- Midnight of the Monday of the week containing civil day `d`
(`startOfCurrentWeek` in `Sync`). -/
def startOfCurrentWeek (d : Int) : Int := d - daysFromMonday d

/-- The inputs of one `Sync` run: the source calendar's contents, the
recurrence-parent lookup, the due token reminder (`none` for non-Google
destinations or when no reminder is due), terminal interactivity and the
line read from stdin (`none` models EOF), success of the four fallible
client reads, and the clock/config inputs of the window calculation. -/
structure Params where
  workEvents : List Event
  parent : ParentLookup
  reminder : Option Event := none
  interactive : Bool := false
  stdin : Option String := none
  findCalOk : Bool := true
  gateFetchOk : Bool := true
  sourceFetchOk : Bool := true
  destFetchOk : Bool := true
  nowDay : Int := 0
  tzOffset : Int := 0
  weeksPast : Nat := 0
  weeksForward : Nat := 2

/-- `timeMin`: Monday 00:00:00 local time, `7 * SyncWindowWeeksPast` days
before the current week's Monday. -/
def timeMinD (p : Params) : DateTime :=
  ⟨startOfCurrentWeek p.nowDay - 7 * p.weeksPast, 0, 0, 0, p.tzOffset⟩

/-- `timeMax`: 23:59:59 local time, `7 * SyncWindowWeeks - 1` days after the
current week's Monday. -/
def timeMaxD (p : Params) : DateTime :=
  ⟨startOfCurrentWeek p.nowDay + 7 * p.weeksForward - 1, 23, 59, 59, p.tzOffset⟩

/-! ## Capability-client calls and state semantics -/

/-- Which client a call is issued on. -/
inductive Target where
  | work
  | personal
  deriving DecidableEq, Repr

/-- A capability-client call, as issued by `Sync` and its helpers. -/
inductive Call where
  | findOrCreateCalendar (t : Target)
  | getEvents (t : Target)
  | getEvent (t : Target) (id : String)
  | findEventsByWorkID (t : Target) (key : String)
  | insertEvent (t : Target) (e : Event)
  | updateEvent (t : Target) (id : String) (e : Event)
  | deleteEvent (t : Target) (id : String)
  deriving DecidableEq, Repr

def Call.target : Call → Target
  | .findOrCreateCalendar t => t
  | .getEvents t => t
  | .getEvent t _ => t
  | .findEventsByWorkID t _ => t
  | .insertEvent t _ => t
  | .updateEvent t _ _ => t
  | .deleteEvent t _ => t

/-- The event mutations: `InsertEvent`, `UpdateEvent`, `DeleteEvent`. -/
def Call.isMutation : Call → Bool
  | .insertEvent _ _ => true
  | .updateEvent _ _ _ => true
  | .deleteEvent _ _ => true
  | _ => false

/-- The read-only calls of the capability contract. -/
def Call.isRead : Call → Bool
  | .getEvents _ => true
  | .getEvent _ _ => true
  | .findEventsByWorkID _ _ => true
  | _ => false

/-- `DeleteEvent` on the mock client: remove the first stored event whose id
matches. -/
def removeFirstById (id : String) : List Event → List Event
  | [] => []
  | e :: rest => if e.id = id then rest else e :: removeFirstById id rest

/-- `UpdateEvent`: replace the content of the first stored event whose id
matches (the server keeps the event's own id). -/
def replaceFirstById (id : String) (new : Event) : List Event → List Event
  | [] => []
  | e :: rest =>
    if e.id = id then { new with id := e.id } :: rest
    else e :: replaceFirstById id new rest

/-- Destination-state transition of one call (reads change nothing,
`InsertEvent` appends). -/
def applyCall (c : Call) (dest : List Event) : List Event :=
  match c with
  | .insertEvent _ e => dest ++ [e]
  | .updateEvent _ id e => replaceFirstById id e dest
  | .deleteEvent _ id => removeFirstById id dest
  | _ => dest

/-- Run a call plan against the destination state.  The `oracle` decides
whether the `n`-th mutation call of the pass succeeds (a failed mutation is
logged by the Go code and leaves the state unchanged); `n` is threaded
through.  Reads always succeed. -/
def applyPlan (oracle : Nat → Bool) : Nat → List Event → List Call → List Event × Nat
  | n, dest, [] => (dest, n)
  | n, dest, c :: rest =>
    if c.isMutation then
      applyPlan oracle (n + 1) (if oracle n then applyCall c dest else dest) rest
    else
      applyPlan oracle n dest rest

/-- The all-mutations-succeed oracle. -/
def allOk : Nat → Bool := fun _ => true

/-! ## The source index and the destination grouping of `Sync` -/

/-- Go map assignment `m[k] = e`: overwrite in place or append. -/
def smapInsert : List (String × Event) → String → Event → List (String × Event)
  | [], k, e => [(k, e)]
  | kv :: rest, k, e =>
    if kv.1 = k then (k, e) :: rest else kv :: smapInsert rest k e

/-- `sourceEventsMap`: the filtered source events indexed by id
(`sourceEventsMap[event.Id] = event`). -/
def mkSourceMap (l : List Event) : List (String × Event) :=
  l.foldl (fun m e => smapInsert m e.id e) []

/-- Go map read `e, ok := m[k]`. -/
def smapLookup (m : List (String × Event)) (k : String) : Option Event :=
  match m.find? (fun kv => kv.1 = k) with
  | some kv => some kv.2
  | none => none

/-- Go `delete(m, k)` (keys of the association list are unique by
construction). -/
def smapErase (m : List (String × Event)) (k : String) : List (String × Event) :=
  m.filter (fun kv => kv.1 ≠ k)

/-- `destEventsByWorkID[workID] = append(destEventsByWorkID[workID], e)`. -/
def addGroup : List (String × List Event) → String → Event → List (String × List Event)
  | [], k, e => [(k, [e])]
  | g :: rest, k, e =>
    if g.1 = k then (g.1, g.2 ++ [e]) :: rest else g :: addGroup rest k e

/-- The `destEventsByWorkID` grouping: tagged destination events grouped by
tracking key, in first-encounter order (one admissible Go map iteration
order); untagged events are collected separately by `untaggedOf`. -/
def groupByWorkID (l : List Event) : List (String × List Event) :=
  l.foldl (fun gs e => if getWorkID e = "" then gs else addGroup gs (getWorkID e) e) []

/-- `eventsWithoutWorkID`: the manually created destination events. -/
def untaggedOf (l : List Event) : List Event :=
  l.filter (fun e => getWorkID e = "")

/-- Go map read `destEventsByWorkID[k]` (missing key gives the nil slice). -/
def lookupGroups (gs : List (String × List Event)) (k : String) : List Event :=
  match gs.find? (fun g => g.1 = k) with
  | some g => g.2
  | none => []

/-- The `eventTime` computed for the sync-window membership test in the
tracking-key group loop: parse `Start.DateTime` as RFC3339, else parse
`Start.Date` (`time.Parse("2006-01-02", …)` yields midnight UTC); `none`
models the zero `time.Time` that fails the `IsZero` check. -/
def eventTimeOf (e : Event) : Option DateTime :=
  match e.start with
  | some (.dateTime _ t) => some t
  | some (.date d) => some ⟨d, 0, 0, 0, 0⟩
  | _ => none

/-- `!eventTime.IsZero() && (eventTime.After(timeMin) ||
eventTime.Equal(timeMin)) && eventTime.Before(timeMax)`. -/
def inWindow (tmin tmax : Int) (e : Event) : Bool :=
  match eventTimeOf e with
  | none => false
  | some t => tmin ≤ t.instant && t.instant < tmax

/-- The representative of a tracking-key group: the first member inside the
sync window, else the first member of the (never empty) group. -/
def repOf (tmin tmax : Int) (g : List Event) : Event :=
  (g.filter (inWindow tmin tmax)).headD (g.headD {})

/-! ## The call plans of one pass -/

/-- `promptForConfirmation`: `false` when not attached to a terminal or on
EOF; otherwise the lowercased, trimmed line must be `yes` or `y`. -/
def promptForConfirmation (interactive : Bool) (input : Option String) : Bool :=
  if !interactive then false
  else
    match input with
    | none => false
    | some line =>
      let response := strTrim (strToLower line)
      response = "yes" || response = "y"

/-- The reminder event `checkAndCreateTokenReminder` builds: fixed summary,
generated description, the reminder date as start, one hour later as end,
default reminders, and the reserved tracking key `TOKEN_REFRESH_REMINDER`
(no id is assigned). -/
def mkReminderEvent (description startRaw endRaw : String) (startT endT : DateTime) : Event :=
  { summary := "⚠️ Refresh OAuth Token for Calendar Sync"
    description := description
    start := some (.dateTime startRaw startT)
    stop := some (.dateTime endRaw endT)
    remindersUseDefault := true
    extendedPrivate := some [("workEventId", "TOKEN_REFRESH_REMINDER")] }

/-- The calls of the token-reminder upsert (`checkAndCreateTokenReminder`,
upsert block): find existing reminders by the reserved key, then update the
first one found or insert a fresh reminder. -/
def reminderPlan (dest0 : List Event) : Option Event → List Call
  | none => []
  | some r =>
    Call.findEventsByWorkID .personal "TOKEN_REFRESH_REMINDER" ::
      (match dest0.filter (fun e => getWorkID e = "TOKEN_REFRESH_REMINDER") with
       | [] => [Call.insertEvent .personal r]
       | e0 :: _ => [Call.updateEvent .personal e0.id r])

/-- The recurrence-parent lookups `filterEvents` performs, in event order:
one `GetEvent` on the work client per timed recurring instance whose own
`EventType` is not already `outOfOffice`. -/
def lookupCallsFor (e : Event) : List Call :=
  match e.start with
  | none => []
  | some (.date _) => []
  | some _ =>
    if e.eventType = "outOfOffice" then []
    else if e.recurringEventId ≠ "" then [Call.getEvent .work e.recurringEventId]
    else []

def parentLookupCalls (events : List Event) : List Call :=
  events.flatMap lookupCallsFor

/-- The tracking-key group loop: a key present in the filtered source index
is consumed (its representative updated if `eventsEqual` differs, extras
untouched); a key absent from the index has every group member deleted.
Returns the calls and the remaining (unconsumed) source index. -/
def groupsPlan (tmin tmax : Int) (smap : List (String × Event)) :
    List (String × List Event) → List Call × List (String × Event)
  | [] => ([], smap)
  | (k, g) :: rest =>
    match smapLookup smap k with
    | some src =>
      let prepared := prepareSyncEvent src
      let rep := repOf tmin tmax g
      let here :=
        if eventsEqual rep prepared then []
        else [Call.updateEvent .personal rep.id prepared]
      let next := groupsPlan tmin tmax (smapErase smap k) rest
      (here ++ next.1, next.2)
    | none =>
      let next := groupsPlan tmin tmax smap rest
      (g.map (fun e => Call.deleteEvent .personal e.id) ++ next.1, next.2)

/-- The remaining-source loop for one unconsumed source event: more than one
existing event with the key collapses the group (delete all, update the
first), exactly one is updated in place, none means a fresh insert. -/
def newEntryPlan (groups : List (String × List Event)) (src : Event) : List Call :=
  let prepared := prepareSyncEvent src
  match lookupGroups groups (getWorkID prepared) with
  | [] => [Call.insertEvent .personal prepared]
  | [e0] => [Call.updateEvent .personal e0.id prepared]
  | e0 :: e1 :: rest =>
    ((e0 :: e1 :: rest).map (fun e => Call.deleteEvent .personal e.id)) ++
      [Call.updateEvent .personal e0.id prepared]

def newPlan (groups : List (String × List Event))
    (remaining : List (String × Event)) : List Call :=
  remaining.flatMap (fun kv => newEntryPlan groups kv.2)

/-- All mutation decisions of the pass after the destination fetch are a
pure function of the fetched snapshot and the source index: delete the
untagged events, run the tracking-key group loop, then the remaining-source
loop. -/
def stage2Plan (tmin tmax : Int) (snapshot : List Event)
    (smap : List (String × Event)) : List Call :=
  let groups := groupByWorkID snapshot
  let gp := groupsPlan tmin tmax smap groups
  ((untaggedOf snapshot).map (fun e => Call.deleteEvent .personal e.id)) ++
    gp.1 ++ newPlan groups gp.2

/-! ## One full `Sync` pass -/

/-- Result of one `Sync` call: every capability-client call issued in
order, the final destination state, and the returned error. -/
structure SyncOut where
  calls : List Call
  dest : List Event
  err : Option String
  deriving Repr

def untaggedCount (l : List Event) : Nat := (untaggedOf l).length

/-- One `Syncer.Sync` pass: resolve the destination calendar, best-effort
token-reminder upsert, safety gate (skipped with a warning when its fetch
fails), window calculation, source fetch and filter, destination fetch,
then the mutation plan of the pass.  Fetch failures are fatal; mutation
failures (the oracle) are logged and skipped. -/
def runSync (p : Params) (dest0 : List Event) (oracle : Nat → Bool) : SyncOut :=
  let calls0 := [Call.findOrCreateCalendar Target.personal]
  if !p.findCalOk then
    { calls := calls0, dest := dest0, err := some "failed to resolve destination calendar" }
  else
    let rPlan := reminderPlan dest0 p.reminder
    let r1 := applyPlan oracle 0 dest0 rPlan
    let dest1 := r1.1
    let calls1 := calls0 ++ rPlan ++ [Call.getEvents Target.personal]
    let gateRefused : Bool :=
      p.gateFetchOk && untaggedCount dest1 > 0 &&
        !promptForConfirmation p.interactive p.stdin
    if gateRefused then
      { calls := calls1, dest := dest1, err := some "sync cancelled by user" }
    else
      let tmin := (timeMinD p).instant
      let tmax := (timeMaxD p).instant
      let calls2 := calls1 ++ [Call.getEvents Target.work]
      if !p.sourceFetchOk then
        { calls := calls2, dest := dest1, err := some "failed to fetch source events" }
      else
        let filtered := filterEvents p.parent p.workEvents
        let looks := parentLookupCalls p.workEvents
        let smap := mkSourceMap filtered
        let calls3 := calls2 ++ looks ++ [Call.getEvents Target.personal]
        if !p.destFetchOk then
          { calls := calls3, dest := dest1, err := some "failed to fetch destination events" }
        else
          let plan2 := stage2Plan tmin tmax dest1 smap
          let r2 := applyPlan oracle r1.2 dest1 plan2
          { calls := calls3 ++ plan2, dest := r2.1, err := none }

/-- The destination-mutating calls of a pass. -/
def mutationCalls (calls : List Call) : List Call :=
  calls.filter Call.isMutation

/-- The `DeleteEvent` calls issued for a given event id. -/
def deleteCallsFor (id : String) (calls : List Call) : List Call :=
  calls.filter (fun c =>
    match c with
    | .deleteEvent _ i => i = id
    | _ => false)

/-- Number of destination events carrying tracking key `k`. -/
def countKey (k : String) (l : List Event) : Nat :=
  (l.filter (fun e => getWorkID e = k)).length

/-- The filtered source index of a pass. -/
def smapOf (p : Params) : List (String × Event) :=
  mkSourceMap (filterEvents p.parent p.workEvents)

def idsOf (l : List Event) : List String := l.map Event.id

/-! ## Basic lemmas about event comparison -/

/-- `timesEqual` is reflexive except on a doubly-empty `EventDateTime`
(which the Go code reports as unequal to itself). -/
theorem timesEqual_refl (dt : Option EDT) (h : dt ≠ some EDT.empty) :
    timesEqual dt dt = true := by
  match dt with
  | none => rfl
  | some (.date d) => simp [timesEqual]
  | some (.dateTime r t) => simp [timesEqual]
  | some (.badDateTime r) => simp [timesEqual]
  | some .empty => exact absurd rfl h

theorem eventsEqual_refl (e : Event) (hs : e.start ≠ some EDT.empty)
    (ht : e.stop ≠ some EDT.empty) : eventsEqual e e = true := by
  simp [eventsEqual, timesEqual_refl _ hs, timesEqual_refl _ ht]

theorem eventsEqual_set_id (a b : Event) (x : String) :
    eventsEqual { a with id := x } b = eventsEqual a b := rfl

@[simp] theorem getWorkID_set_id (a : Event) (x : String) :
    getWorkID { a with id := x } = getWorkID a := rfl

@[simp] theorem getWorkID_prepare (src : Event) :
    getWorkID (prepareSyncEvent src) = src.id := by
  simp [getWorkID, prepareSyncEvent, mapGet, List.find?]

/-! ## Lemmas about plan application -/

/-- Applying a plan with the all-success oracle is a fold of the state
transitions (reads leave the state unchanged). -/
def applyMuts (ops : List Call) (dest : List Event) : List Event :=
  ops.foldl (fun d c => applyCall c d) dest

theorem applyMuts_nil (dest : List Event) : applyMuts [] dest = dest := rfl

theorem applyMuts_cons (c : Call) (ops : List Call) (dest : List Event) :
    applyMuts (c :: ops) dest = applyMuts ops (applyCall c dest) := rfl

theorem applyMuts_append (l1 l2 : List Call) (dest : List Event) :
    applyMuts (l1 ++ l2) dest = applyMuts l2 (applyMuts l1 dest) := by
  simp [applyMuts, List.foldl_append]

theorem applyCall_read (c : Call) (h : c.isMutation = false) (dest : List Event) :
    applyCall c dest = dest := by
  cases c <;> simp_all [Call.isMutation, applyCall]

theorem applyPlan_fst_allOk (ops : List Call) :
    ∀ (n : Nat) (dest : List Event),
      (applyPlan allOk n dest ops).1 = applyMuts ops dest := by
  induction ops with
  | nil => intro n dest; rfl
  | cons c rest ih =>
    intro n dest
    by_cases h : c.isMutation
    · simp [applyPlan, h, allOk, applyMuts_cons, ih]
    · simp only [Bool.not_eq_true] at h
      simp [applyPlan, h, applyMuts_cons, applyCall_read c h, ih]

theorem applyPlan_nil (oracle : Nat → Bool) (n : Nat) (dest : List Event) :
    applyPlan oracle n dest [] = (dest, n) := rfl

/-- Insert-only plans append the inserted events in order. -/
theorem applyMuts_inserts (es : List Event) :
    ∀ dest : List Event,
      applyMuts (es.map (fun e => Call.insertEvent Target.personal e)) dest
        = dest ++ es := by
  induction es with
  | nil => intro dest; simp [applyMuts]
  | cons e rest ih =>
    intro dest
    simp [List.map_cons, applyMuts_cons, applyCall, ih]

/-! ## Lemmas about the id-directed list surgery -/

theorem removeFirstById_of_not_mem (id : String) (l : List Event)
    (h : ∀ e ∈ l, e.id ≠ id) : removeFirstById id l = l := by
  induction l with
  | nil => rfl
  | cons e rest ih =>
    have he : e.id ≠ id := h e (by simp)
    simp only [removeFirstById, if_neg he]
    rw [ih (fun x hx => h x (by simp [hx]))]

theorem map_id_on {α : Type} (f : α → α) (l : List α) (h : ∀ x ∈ l, f x = x) :
    l.map f = l := by
  induction l with
  | nil => rfl
  | cons a rest ih =>
    simp only [List.map_cons, h a (by simp), List.cons.injEq, true_and]
    exact ih (fun x hx => h x (by simp [hx]))

theorem nodup_ids_unique_rest (e : Event) (rest : List Event)
    (h1 : e.id ∉ List.map Event.id rest) :
    ∀ x ∈ rest, x.id ≠ e.id := by
  intro x hx hxid
  exact h1 (List.mem_map.mpr ⟨x, hx, hxid⟩)

/-- With duplicate-free ids, deleting by id is filtering by id. -/
theorem removeFirstById_eq_filter (id : String) (l : List Event)
    (h : (idsOf l).Nodup) :
    removeFirstById id l = l.filter (fun e => e.id ≠ id) := by
  induction l with
  | nil => rfl
  | cons e rest ih =>
    simp only [idsOf, List.map_cons, List.nodup_cons] at h
    by_cases he : e.id = id
    · have hr : ∀ x ∈ rest, x.id ≠ id :=
        fun x hx hxid => (nodup_ids_unique_rest e rest h.1) x hx (by rw [hxid, he])
      simp only [removeFirstById, if_pos he, List.filter_cons]
      rw [if_neg (by simp [he])]
      rw [List.filter_eq_self.2 (fun x hx => by simpa using hr x hx)]
    · simp only [removeFirstById, if_neg he, List.filter_cons]
      rw [if_pos (by simpa using he)]
      rw [ih h.2]

/-- With duplicate-free ids, updating by id rewrites the matching element
in place. -/
theorem replaceFirstById_eq_map (id : String) (new : Event) (l : List Event)
    (h : (idsOf l).Nodup) :
    replaceFirstById id new l
      = l.map (fun e => if e.id = id then { new with id := e.id } else e) := by
  induction l with
  | nil => rfl
  | cons e rest ih =>
    simp only [idsOf, List.map_cons, List.nodup_cons] at h
    by_cases he : e.id = id
    · have hr : ∀ x ∈ rest, x.id ≠ id :=
        fun x hx hxid => (nodup_ids_unique_rest e rest h.1) x hx (by rw [hxid, he])
      simp only [replaceFirstById, if_pos he, List.map_cons, if_pos he]
      congr 1
      exact (map_id_on _ rest (fun x hx => by rw [if_neg (hr x hx)])).symm
    · simp only [replaceFirstById, if_neg he, List.map_cons, if_neg he]
      rw [ih h.2]

theorem idsOf_replaceFirstById (id : String) (new : Event) (l : List Event) :
    idsOf (replaceFirstById id new l) = idsOf l := by
  induction l with
  | nil => rfl
  | cons e rest ih =>
    by_cases he : e.id = id
    · simp [replaceFirstById, if_pos he, idsOf]
    · simp only [replaceFirstById, if_neg he]
      simp [idsOf] at ih ⊢
      exact ih

/-! ## Lemmas about the source index -/

theorem nodup_append_singleton {α : Type} (l : List α) (a : α)
    (h1 : l.Nodup) (h2 : a ∉ l) : (l ++ [a]).Nodup := by
  refine List.Nodup.append h1 (List.nodup_singleton a) ?_
  intro x hx hxa
  simp only [List.mem_singleton] at hxa
  exact h2 (hxa ▸ hx)

theorem smapInsert_mem (m : List (String × Event)) (k : String) (e : Event) :
    ∀ kv ∈ smapInsert m k e, kv ∈ m ∨ kv = (k, e) := by
  induction m with
  | nil => intro kv hkv; right; simpa [smapInsert] using hkv
  | cons g rest ih =>
    intro kv hkv
    by_cases hk : g.1 = k
    · simp only [smapInsert, if_pos hk] at hkv
      rcases List.mem_cons.mp hkv with h | h
      · right; exact h
      · left; simp [h]
    · simp only [smapInsert, if_neg hk] at hkv
      rcases List.mem_cons.mp hkv with h | h
      · left; simp [h]
      · rcases ih kv h with h2 | h2
        · left; simp [h2]
        · right; exact h2

theorem smapInsert_keys_of_mem (m : List (String × Event)) (k : String) (e : Event)
    (h : k ∈ m.map Prod.fst) :
    (smapInsert m k e).map Prod.fst = m.map Prod.fst := by
  induction m with
  | nil => simp at h
  | cons g rest ih =>
    by_cases hk : g.1 = k
    · simp [smapInsert, if_pos hk, hk]
    · simp only [List.map_cons] at h
      rcases List.mem_cons.mp h with h | h
      · exact absurd h (fun h2 => hk h2.symm)
      · simp [smapInsert, if_neg hk, ih h]

theorem smapInsert_keys_of_not_mem (m : List (String × Event)) (k : String) (e : Event)
    (h : k ∉ m.map Prod.fst) :
    (smapInsert m k e).map Prod.fst = m.map Prod.fst ++ [k] := by
  induction m with
  | nil => simp [smapInsert]
  | cons g rest ih =>
    simp only [List.map_cons, List.mem_cons] at h
    push_neg at h
    have hne : ¬(g.1 = k) := fun hgk => h.1 hgk.symm
    simp [smapInsert, if_neg hne, ih h.2]

theorem mkSourceMap_snoc (l : List Event) (e : Event) :
    mkSourceMap (l ++ [e]) = smapInsert (mkSourceMap l) e.id e := by
  simp [mkSourceMap, List.foldl_append]

theorem mkSourceMap_mem (l : List Event) :
    ∀ kv ∈ mkSourceMap l, kv.2 ∈ l ∧ kv.2.id = kv.1 := by
  induction l using List.reverseRecOn with
  | nil => intro kv hkv; simp [mkSourceMap] at hkv
  | append_singleton rest e ih =>
    intro kv hkv
    rw [mkSourceMap_snoc] at hkv
    rcases smapInsert_mem _ _ _ kv hkv with h | h
    · exact ⟨by simp [(ih kv h).1], (ih kv h).2⟩
    · subst h; exact ⟨by simp, rfl⟩

theorem mkSourceMap_keys_nodup (l : List Event) :
    ((mkSourceMap l).map Prod.fst).Nodup := by
  induction l using List.reverseRecOn with
  | nil => simp [mkSourceMap]
  | append_singleton rest e ih =>
    rw [mkSourceMap_snoc]
    by_cases h : e.id ∈ (mkSourceMap rest).map Prod.fst
    · rw [smapInsert_keys_of_mem _ _ _ h]; exact ih
    · rw [smapInsert_keys_of_not_mem _ _ _ h]
      exact nodup_append_singleton _ _ ih h

theorem mkSourceMap_keys_sub (l : List Event) :
    ∀ k ∈ (mkSourceMap l).map Prod.fst, k ∈ idsOf l := by
  intro k hk
  rcases List.mem_map.mp hk with ⟨kv, hkv, hfst⟩
  rcases mkSourceMap_mem l kv hkv with ⟨hmem, hid⟩
  exact List.mem_map.mpr ⟨kv.2, hmem, by rw [hid, hfst]⟩

theorem smapLookup_eq_none (m : List (String × Event)) (k : String) :
    smapLookup m k = none ↔ ∀ kv ∈ m, kv.1 ≠ k := by
  constructor
  · intro h kv hkv hk
    simp only [smapLookup] at h
    cases hfind : m.find? (fun kv => kv.1 = k) with
    | none =>
      have := List.find?_eq_none.mp hfind kv hkv
      simp [hk] at this
    | some kv2 => simp [hfind] at h
  · intro h
    simp only [smapLookup]
    rw [List.find?_eq_none.mpr (fun kv hkv => by simp [h kv hkv])]

theorem smapLookup_mem (m : List (String × Event)) (k : String) (src : Event)
    (h : smapLookup m k = some src) : (k, src) ∈ m := by
  simp only [smapLookup] at h
  cases hfind : m.find? (fun kv => kv.1 = k) with
  | none => simp [hfind] at h
  | some kv =>
    simp only [hfind, Option.some.injEq] at h
    have hmem := List.mem_of_find?_eq_some hfind
    have hkey : kv.1 = k := by simpa using List.find?_some hfind
    rw [← h, ← hkey]
    exact hmem

theorem smapLookup_erase_ne (m : List (String × Event)) (k k2 : String)
    (h : k2 ≠ k) : smapLookup (smapErase m k) k2 = smapLookup m k2 := by
  induction m with
  | nil => rfl
  | cons g rest ih =>
    by_cases hg : g.1 = k
    · have hg2 : ¬(g.1 = k2) := by rw [hg]; exact fun hkk => h hkk.symm
      simp only [smapErase, List.filter_cons]
      rw [if_neg (by simpa using hg)]
      simp only [smapLookup, List.find?]
      rw [show (decide (g.1 = k2)) = false by simpa using hg2]
      exact ih
    · simp only [smapErase, List.filter_cons]
      rw [if_pos (by simpa using hg)]
      by_cases hg2 : g.1 = k2
      · simp [smapLookup, List.find?, hg2]
      · simp only [smapLookup, List.find?]
        rw [show (decide (g.1 = k2)) = false by simpa using hg2]
        exact ih

theorem smapErase_keys (m : List (String × Event)) (k : String) :
    (smapErase m k).map Prod.fst = (m.map Prod.fst).filter (fun k2 => k2 ≠ k) := by
  induction m with
  | nil => rfl
  | cons g rest ih =>
    by_cases hg : g.1 = k
    · simp only [smapErase, List.filter_cons, List.map_cons] at *
      rw [if_neg (by simpa using hg), if_neg (by simpa using hg)]
      exact ih
    · simp only [smapErase, List.filter_cons, List.map_cons] at *
      rw [if_pos (by simpa using hg), if_pos (by simpa using hg)]
      simpa using ih

/-! ## Lemmas about the destination grouping -/

/-- The keys of the tagged destination events, with multiplicity, in
destination order. -/
def taggedKeys (l : List Event) : List String :=
  (l.filter (fun e => !(getWorkID e = ""))).map getWorkID

theorem addGroup_fresh (gs : List (String × List Event)) (k : String) (e : Event)
    (h : k ∉ gs.map Prod.fst) : addGroup gs k e = gs ++ [(k, [e])] := by
  induction gs with
  | nil => rfl
  | cons g rest ih =>
    simp only [List.map_cons, List.mem_cons] at h
    push_neg at h
    have hne : ¬(g.1 = k) := fun hgk => h.1 hgk.symm
    simp [addGroup, if_neg hne, ih h.2]

theorem addGroup_keys_of_mem (gs : List (String × List Event)) (k : String) (e : Event)
    (h : k ∈ gs.map Prod.fst) :
    (addGroup gs k e).map Prod.fst = gs.map Prod.fst := by
  induction gs with
  | nil => simp at h
  | cons g rest ih =>
    by_cases hk : g.1 = k
    · simp [addGroup, if_pos hk, hk]
    · simp only [List.map_cons] at h
      rcases List.mem_cons.mp h with h | h
      · exact absurd h (fun h2 => hk h2.symm)
      · simp [addGroup, if_neg hk, ih h]

theorem addGroup_mem_cases (gs : List (String × List Event)) (k : String) (e : Event) :
    ∀ kg ∈ addGroup gs k e,
      kg ∈ gs ∨ ∃ g0, kg = (k, g0 ++ [e]) ∧ ((k, g0) ∈ gs ∨ g0 = []) := by
  induction gs with
  | nil =>
    intro kg hkg
    right
    refine ⟨[], ?_, Or.inr rfl⟩
    simpa [addGroup] using hkg
  | cons g rest ih =>
    intro kg hkg
    by_cases hk : g.1 = k
    · simp only [addGroup, if_pos hk, List.mem_cons] at hkg
      rcases hkg with h | h
      · right
        refine ⟨g.2, by rw [h, hk], Or.inl ?_⟩
        rw [← hk]
        simp
      · left; simp [h]
    · simp only [addGroup, if_neg hk, List.mem_cons] at hkg
      rcases hkg with h | h
      · left; simp [h]
      · rcases ih kg h with h2 | ⟨g0, hg0, hmem⟩
        · left; simp [h2]
        · right
          refine ⟨g0, hg0, ?_⟩
          rcases hmem with h3 | h3
          · exact Or.inl (by simp [h3])
          · exact Or.inr h3

theorem groupByWorkID_snoc (l : List Event) (e : Event) :
    groupByWorkID (l ++ [e]) =
      if getWorkID e = "" then groupByWorkID l
      else addGroup (groupByWorkID l) (getWorkID e) e := by
  simp [groupByWorkID, List.foldl_append]

theorem groupByWorkID_sound (l : List Event) :
    ∀ kg ∈ groupByWorkID l, kg.2 ≠ [] ∧ kg.1 ≠ "" ∧
      ∀ e ∈ kg.2, getWorkID e = kg.1 ∧ e ∈ l := by
  induction l using List.reverseRecOn with
  | nil => intro kg hkg; simp [groupByWorkID] at hkg
  | append_singleton rest e ih =>
    intro kg hkg
    rw [groupByWorkID_snoc] at hkg
    by_cases he : getWorkID e = ""
    · rw [if_pos he] at hkg
      rcases ih kg hkg with ⟨h1, h2, h3⟩
      exact ⟨h1, h2, fun x hx => ⟨(h3 x hx).1, by simp [(h3 x hx).2]⟩⟩
    · rw [if_neg he] at hkg
      rcases addGroup_mem_cases _ _ _ kg hkg with h | ⟨g0, hg0, hmem⟩
      · rcases ih kg h with ⟨h1, h2, h3⟩
        exact ⟨h1, h2, fun x hx => ⟨(h3 x hx).1, by simp [(h3 x hx).2]⟩⟩
      · subst hg0
        rcases hmem with h3 | h3
        · rcases ih _ h3 with ⟨_, _, h4⟩
          refine ⟨by simp, he, fun x hx => ?_⟩
          rcases List.mem_append.mp hx with hx2 | hx2
          · exact ⟨(h4 x hx2).1, by simp [(h4 x hx2).2]⟩
          · simp only [List.mem_singleton] at hx2
            subst hx2
            exact ⟨rfl, by simp⟩
        · subst h3
          refine ⟨by simp, he, fun x hx => ?_⟩
          simp only [List.nil_append, List.mem_singleton] at hx
          subst hx
          exact ⟨rfl, by simp⟩

theorem groupKeys_nodup (l : List Event) :
    ((groupByWorkID l).map Prod.fst).Nodup := by
  induction l using List.reverseRecOn with
  | nil => simp [groupByWorkID]
  | append_singleton rest e ih =>
    rw [groupByWorkID_snoc]
    by_cases he : getWorkID e = ""
    · rw [if_pos he]; exact ih
    · rw [if_neg he]
      by_cases hk : getWorkID e ∈ (groupByWorkID rest).map Prod.fst
      · rw [addGroup_keys_of_mem _ _ _ hk]; exact ih
      · rw [addGroup_fresh _ _ _ hk]
        rw [List.map_append]
        exact nodup_append_singleton _ _ ih hk

theorem addGroup_flat_perm (gs : List (String × List Event)) (k : String) (e : Event) :
    List.Perm ((addGroup gs k e).flatMap Prod.snd) (gs.flatMap Prod.snd ++ [e]) := by
  induction gs with
  | nil => simp [addGroup]
  | cons g rest ih =>
    by_cases hk : g.1 = k
    · simp only [addGroup, if_pos hk, List.flatMap_cons]
      have h1 : (g.2 ++ [e]) ++ rest.flatMap Prod.snd
          = g.2 ++ ([e] ++ rest.flatMap Prod.snd) := by rw [List.append_assoc]
      have h2 : List.Perm (g.2 ++ ([e] ++ rest.flatMap Prod.snd))
          (g.2 ++ (rest.flatMap Prod.snd ++ [e])) :=
        List.Perm.append_left _ List.perm_append_comm
      have h3 : g.2 ++ (rest.flatMap Prod.snd ++ [e])
          = (g.2 ++ rest.flatMap Prod.snd) ++ [e] := by rw [List.append_assoc]
      rw [h1, ← h3]
      exact h2
    · simp only [addGroup, if_neg hk, List.flatMap_cons]
      have h2 : List.Perm (g.2 ++ (addGroup rest k e).flatMap Prod.snd)
          (g.2 ++ (rest.flatMap Prod.snd ++ [e])) :=
        List.Perm.append_left _ ih
      have h3 : g.2 ++ (rest.flatMap Prod.snd ++ [e])
          = (g.2 ++ rest.flatMap Prod.snd) ++ [e] := by rw [List.append_assoc]
      rw [← h3]
      exact h2

theorem groupByWorkID_flat_perm (l : List Event) :
    List.Perm ((groupByWorkID l).flatMap Prod.snd)
      (l.filter (fun e => !(getWorkID e = ""))) := by
  induction l using List.reverseRecOn with
  | nil => simp [groupByWorkID]
  | append_singleton rest e ih =>
    rw [groupByWorkID_snoc]
    by_cases he : getWorkID e = ""
    · rw [if_pos he]
      simp only [List.filter_append, List.filter_cons, List.filter_nil]
      rw [show (!(decide (getWorkID e = ""))) = false by simp [he]]
      simpa using ih
    · rw [if_neg he]
      have h1 := addGroup_flat_perm (groupByWorkID rest) (getWorkID e) e
      have h2 : (rest ++ [e]).filter (fun e => !(getWorkID e = ""))
          = rest.filter (fun e => !(getWorkID e = "")) ++ [e] := by
        simp [List.filter_append, List.filter_cons, he]
      rw [h2]
      exact h1.trans (ih.append_right _)

theorem mem_groupKeys_of_tagged (l : List Event) (e : Event) (he : e ∈ l)
    (ht : getWorkID e ≠ "") : getWorkID e ∈ (groupByWorkID l).map Prod.fst := by
  have : e ∈ (groupByWorkID l).flatMap Prod.snd :=
    (groupByWorkID_flat_perm l).mem_iff.mpr (List.mem_filter.mpr ⟨he, by simpa using ht⟩)
  rcases List.mem_flatMap.mp this with ⟨g, hg, heg⟩
  rcases groupByWorkID_sound l g hg with ⟨_, _, h3⟩
  rw [(h3 e heg).1]
  exact List.mem_map.mpr ⟨g, hg, rfl⟩

theorem nodup_append_singleton_inv {α : Type} {l : List α} {a : α}
    (h : (l ++ [a]).Nodup) : l.Nodup ∧ a ∉ l := by
  refine ⟨h.sublist (List.sublist_append_left l [a]), fun ha => ?_⟩
  exact (List.disjoint_of_nodup_append h) ha (List.mem_singleton_self a)

theorem taggedKeys_snoc (l : List Event) (e : Event) :
    taggedKeys (l ++ [e]) =
      if getWorkID e = "" then taggedKeys l else taggedKeys l ++ [getWorkID e] := by
  by_cases he : getWorkID e = "" <;>
    simp [taggedKeys, List.filter_append, List.filter_cons, he]

/-- With at most one tagged destination event per key, the grouping has
exactly one singleton group per tagged event, in destination order. -/
theorem groupByWorkID_of_nodup_keys (l : List Event) (h : (taggedKeys l).Nodup) :
    groupByWorkID l
      = (l.filter (fun e => !(getWorkID e = ""))).map (fun e => (getWorkID e, [e])) := by
  induction l using List.reverseRecOn with
  | nil => simp [groupByWorkID]
  | append_singleton rest e ih =>
    rw [groupByWorkID_snoc]
    by_cases he : getWorkID e = ""
    · rw [if_pos he]
      have hfilter : (rest ++ [e]).filter (fun e => !(getWorkID e = ""))
          = rest.filter (fun e => !(getWorkID e = "")) := by
        simp [List.filter_append, List.filter_cons, he]
      rw [hfilter]
      apply ih
      rw [taggedKeys_snoc, if_pos he] at h
      exact h
    · rw [if_neg he]
      rw [taggedKeys_snoc, if_neg he] at h
      have hnd : (taggedKeys rest).Nodup := (nodup_append_singleton_inv h).1
      have hfresh : getWorkID e ∉ taggedKeys rest := (nodup_append_singleton_inv h).2
      rw [ih hnd]
      have hfresh2 : getWorkID e ∉
          ((rest.filter (fun e => !(getWorkID e = ""))).map
            (fun e => (getWorkID e, [e]))).map Prod.fst := by
        simpa [taggedKeys, List.map_map, Function.comp] using hfresh
      rw [addGroup_fresh _ _ _ hfresh2]
      have hfilter : (rest ++ [e]).filter (fun e => !(getWorkID e = ""))
          = rest.filter (fun e => !(getWorkID e = "")) ++ [e] := by
        simp [List.filter_append, List.filter_cons, he]
      rw [hfilter]
      simp

theorem repOf_mem (tmin tmax : Int) (g : List Event) (h : g ≠ []) :
    repOf tmin tmax g ∈ g := by
  unfold repOf
  cases hf : g.filter (inWindow tmin tmax) with
  | nil =>
    simp only [List.headD_nil]
    cases g with
    | nil => exact absurd rfl h
    | cons a rest => simp
  | cons a rest =>
    simp only [List.headD_cons]
    have : a ∈ g.filter (inWindow tmin tmax) := by rw [hf]; simp
    exact (List.mem_filter.mp this).1

theorem repOf_singleton (tmin tmax : Int) (e : Event) : repOf tmin tmax [e] = e := by
  unfold repOf
  by_cases h : inWindow tmin tmax e
  · simp [List.filter_cons, h]
  · simp [List.filter_cons, h]

/-! ## Generic list helpers -/

theorem flatMap_congr_mem {α β : Type} (l : List α) (f g : α → List β)
    (h : ∀ a ∈ l, f a = g a) : l.flatMap f = l.flatMap g := by
  induction l with
  | nil => rfl
  | cons a rest ih =>
    simp only [List.flatMap_cons, h a (by simp)]
    rw [ih (fun x hx => h x (by simp [hx]))]

theorem filterMap_congr_mem {α β : Type} (l : List α) (f g : α → Option β)
    (h : ∀ a ∈ l, f a = g a) : l.filterMap f = l.filterMap g := by
  induction l with
  | nil => rfl
  | cons a rest ih =>
    simp only [List.filterMap_cons, h a (by simp)]
    rw [ih (fun x hx => h x (by simp [hx]))]

theorem filterMap_filter_eq {α β : Type} (p : α → Bool) (f : α → Option β)
    (l : List α) :
    (l.filter p).filterMap f = l.filterMap (fun a => if p a then f a else none) := by
  induction l with
  | nil => rfl
  | cons a rest ih =>
    by_cases hp : p a
    · rw [List.filter_cons_of_pos (by simpa using hp), List.filterMap_cons,
        List.filterMap_cons, if_pos hp, ih]
    · rw [List.filter_cons_of_neg (by simpa using hp), List.filterMap_cons,
        if_neg hp, ih]

theorem filterMap_flatMap_eq {α β γ : Type} (l : List α) (f : α → List β)
    (g : β → Option γ) :
    (l.flatMap f).filterMap g = l.flatMap (fun a => (f a).filterMap g) := by
  induction l with
  | nil => rfl
  | cons a rest ih => simp [List.flatMap_cons, List.filterMap_append, ih]

theorem map_flatMap_eq {α β γ : Type} (l : List α) (f : α → List β) (g : β → γ) :
    (l.flatMap f).map g = l.flatMap (fun a => (f a).map g) := by
  induction l with
  | nil => rfl
  | cons a rest ih => simp [List.flatMap_cons, List.map_append, ih]

/-! ## Targeted-mutation characterization

Every mutation the pass emits after the destination fetch, except the
final inserts, is directed at one event id of the fetched snapshot; with
duplicate-free ids the combined effect is computed pointwise. -/

def opTarget? : Call → Option String
  | .updateEvent _ i _ => some i
  | .deleteEvent _ i => some i
  | _ => none

def targetsOf (ops : List Call) : List String := ops.filterMap opTarget?

def findOp (ops : List Call) (id : String) : Option Call :=
  ops.find? (fun c => opTarget? c = some id)

/-- Pointwise effect of a targeted-mutation list on one snapshot event. -/
def applyOp (ops : List Call) (e : Event) : Option Event :=
  match findOp ops e.id with
  | some (.deleteEvent _ _) => none
  | some (.updateEvent _ _ new) => some { new with id := e.id }
  | _ => some e

theorem findOp_cons_hit (c : Call) (ops : List Call) (id : String)
    (h : opTarget? c = some id) : findOp (c :: ops) id = some c := by
  simp [findOp, List.find?, h]

theorem findOp_cons_miss (c : Call) (ops : List Call) (id : String)
    (h : opTarget? c ≠ some id) : findOp (c :: ops) id = findOp ops id := by
  simp only [findOp, List.find?]
  rw [show (decide (opTarget? c = some id)) = false by simpa using h]

theorem findOp_eq_none (ops : List Call) (id : String)
    (h : ∀ c ∈ ops, opTarget? c ≠ some id) : findOp ops id = none := by
  apply List.find?_eq_none.mpr
  intro c hc
  simpa using h c hc

theorem filterMap_some_self (l : List Event) : l.filterMap some = l := by
  induction l with
  | nil => rfl
  | cons a rest ih => simp [List.filterMap_cons, ih]

/-- The central surgery lemma: a list of update/delete calls with pairwise
distinct target ids, applied to a destination with duplicate-free ids, acts
pointwise. -/
theorem applyMuts_targeted (ops : List Call) :
    ∀ dest : List Event,
      (∀ c ∈ ops, (opTarget? c).isSome) →
      (targetsOf ops).Nodup →
      (idsOf dest).Nodup →
      applyMuts ops dest = dest.filterMap (applyOp ops) := by
  induction ops with
  | nil =>
    intro dest _ _ _
    simp only [applyMuts_nil]
    rw [filterMap_congr_mem dest _ some (fun e _ => by simp [applyOp, findOp, List.find?])]
    rw [filterMap_some_self]
  | cons c rest ih =>
    intro dest hshape hnodup hids
    cases c with
    | findOrCreateCalendar t =>
      simpa [opTarget?] using hshape (Call.findOrCreateCalendar t) (by simp)
    | getEvents t =>
      simpa [opTarget?] using hshape (Call.getEvents t) (by simp)
    | getEvent t i =>
      simpa [opTarget?] using hshape (Call.getEvent t i) (by simp)
    | findEventsByWorkID t k =>
      simpa [opTarget?] using hshape (Call.findEventsByWorkID t k) (by simp)
    | insertEvent t e =>
      simpa [opTarget?] using hshape (Call.insertEvent t e) (by simp)
    | deleteEvent t i =>
      have htgt : targetsOf (Call.deleteEvent t i :: rest) = i :: targetsOf rest := by
        simp [targetsOf, List.filterMap_cons, opTarget?]
      rw [htgt] at hnodup
      have hni : i ∉ targetsOf rest := (List.nodup_cons.mp hnodup).1
      have hrestn : (targetsOf rest).Nodup := (List.nodup_cons.mp hnodup).2
      have hrests : ∀ c2 ∈ rest, (opTarget? c2).isSome :=
        fun c2 hc2 => hshape c2 (by simp [hc2])
      rw [applyMuts_cons]
      have happ : applyCall (Call.deleteEvent t i) dest = removeFirstById i dest := rfl
      rw [happ, removeFirstById_eq_filter i dest hids]
      have hids2 : (idsOf (dest.filter (fun e => e.id ≠ i))).Nodup := by
        refine List.Nodup.sublist ?_ hids
        exact List.Sublist.map Event.id (List.filter_sublist dest)
      rw [ih _ hrests hrestn hids2]
      rw [filterMap_filter_eq]
      apply filterMap_congr_mem
      intro e _
      by_cases he : e.id = i
      · rw [if_neg (by simpa using he)]
        unfold applyOp
        rw [findOp_cons_hit _ _ _ (by simp [opTarget?, he])]
      · rw [if_pos (by simpa using he)]
        unfold applyOp
        rw [findOp_cons_miss _ _ _
          (by simp only [opTarget?, ne_eq, Option.some.injEq]; exact fun h2 => he h2.symm)]
    | updateEvent t i new =>
      have htgt : targetsOf (Call.updateEvent t i new :: rest) = i :: targetsOf rest := by
        simp [targetsOf, List.filterMap_cons, opTarget?]
      rw [htgt] at hnodup
      have hni : i ∉ targetsOf rest := (List.nodup_cons.mp hnodup).1
      have hrestn : (targetsOf rest).Nodup := (List.nodup_cons.mp hnodup).2
      have hrests : ∀ c2 ∈ rest, (opTarget? c2).isSome :=
        fun c2 hc2 => hshape c2 (by simp [hc2])
      have hrestnone : findOp rest i = none := by
        apply findOp_eq_none
        intro c2 hc2 habs
        exact hni (List.mem_filterMap.mpr ⟨c2, hc2, habs⟩)
      rw [applyMuts_cons]
      have happ : applyCall (Call.updateEvent t i new) dest = replaceFirstById i new dest := rfl
      rw [happ, replaceFirstById_eq_map i new dest hids]
      have hidseq : idsOf (dest.map (fun e =>
          if e.id = i then { new with id := e.id } else e)) = idsOf dest := by
        simp only [idsOf, List.map_map]
        apply List.map_congr_left
        intro e _
        by_cases he : e.id = i <;> simp [Function.comp, he]
      rw [ih _ hrests hrestn (by rw [hidseq]; exact hids)]
      rw [List.filterMap_map]
      apply filterMap_congr_mem
      intro e _
      by_cases he : e.id = i
      · simp only [Function.comp, if_pos he]
        have hidnew : ({ new with id := e.id } : Event).id = e.id := rfl
        unfold applyOp
        rw [findOp_cons_hit _ _ _ (by simp [opTarget?, he])]
        rw [hidnew, he, hrestnone]
      · simp only [Function.comp, if_neg he]
        unfold applyOp
        rw [findOp_cons_miss _ _ _
          (by simp only [opTarget?, ne_eq, Option.some.injEq]; exact fun h2 => he h2.symm)]

/-! ## Characterization of the tracking-key group loop -/

/-- The calls one tracking-key group contributes. -/
def groupSegment (tmin tmax : Int) (M : List (String × Event))
    (kg : String × List Event) : List Call :=
  match smapLookup M kg.1 with
  | some src =>
    if eventsEqual (repOf tmin tmax kg.2) (prepareSyncEvent src) then []
    else [Call.updateEvent Target.personal (repOf tmin tmax kg.2).id (prepareSyncEvent src)]
  | none => kg.2.map (fun e => Call.deleteEvent Target.personal e.id)

theorem groupsPlan_calls (tmin tmax : Int) (gs : List (String × List Event)) :
    ∀ M : List (String × Event), (gs.map Prod.fst).Nodup →
      (groupsPlan tmin tmax M gs).1 = gs.flatMap (groupSegment tmin tmax M) := by
  induction gs with
  | nil => intro M _; rfl
  | cons kg rest ih =>
    intro M h
    obtain ⟨k, g⟩ := kg
    simp only [List.map_cons] at h
    have hk_not : k ∉ rest.map Prod.fst := (List.nodup_cons.mp h).1
    have hrest : (rest.map Prod.fst).Nodup := (List.nodup_cons.mp h).2
    cases hl : smapLookup M k with
    | some src =>
      simp only [groupsPlan, hl, List.flatMap_cons]
      rw [ih (smapErase M k) hrest]
      congr 1
      · simp [groupSegment, hl]
      · apply flatMap_congr_mem
        intro kg2 hkg2
        have hne : kg2.1 ≠ k :=
          fun habs => hk_not (habs ▸ List.mem_map.mpr ⟨kg2, hkg2, rfl⟩)
        simp only [groupSegment]
        rw [smapLookup_erase_ne M k kg2.1 hne]
    | none =>
      simp only [groupsPlan, hl, List.flatMap_cons]
      rw [ih M hrest]
      congr 1
      simp [groupSegment, hl]

theorem groupsPlan_smap (tmin tmax : Int) (gs : List (String × List Event)) :
    ∀ M : List (String × Event), (gs.map Prod.fst).Nodup →
      (groupsPlan tmin tmax M gs).2
        = M.filter (fun kv => !(kv.1 ∈ gs.map Prod.fst)) := by
  induction gs with
  | nil =>
    intro M _
    show M = _
    rw [List.filter_eq_self.mpr (fun kv _ => by simp)]
  | cons kg rest ih =>
    intro M h
    obtain ⟨k, g⟩ := kg
    simp only [List.map_cons] at h
    have hrest : (rest.map Prod.fst).Nodup := (List.nodup_cons.mp h).2
    cases hl : smapLookup M k with
    | some src =>
      simp only [groupsPlan, hl]
      rw [ih (smapErase M k) hrest]
      show (M.filter (fun kv => kv.1 ≠ k)).filter _ = _
      rw [List.filter_filter]
      apply List.filter_congr
      intro kv _
      by_cases h1 : kv.1 = k <;> by_cases h2 : kv.1 ∈ rest.map Prod.fst <;>
        simp [h1, h2, List.mem_cons]
    | none =>
      simp only [groupsPlan, hl]
      rw [ih M hrest]
      apply List.filter_congr
      intro kv hkv
      have hne : kv.1 ≠ k := (smapLookup_eq_none M k).mp hl kv hkv
      simp [List.mem_cons, hne]

theorem lookupGroups_eq_nil (gs : List (String × List Event)) (k : String)
    (h : k ∉ gs.map Prod.fst) : lookupGroups gs k = [] := by
  unfold lookupGroups
  rw [List.find?_eq_none.mpr (fun g hg => by
    simp only [decide_eq_true_eq]
    exact fun habs => h (habs ▸ List.mem_map.mpr ⟨g, hg, rfl⟩))]

/-- When every unconsumed source event has a fresh key, the
remaining-source loop only inserts. -/
theorem newPlan_all_inserts (gs : List (String × List Event))
    (rem : List (String × Event))
    (h1 : ∀ kv ∈ rem, kv.2.id = kv.1)
    (h2 : ∀ kv ∈ rem, kv.1 ∉ gs.map Prod.fst) :
    newPlan gs rem
      = rem.map (fun kv => Call.insertEvent Target.personal (prepareSyncEvent kv.2)) := by
  unfold newPlan
  induction rem with
  | nil => rfl
  | cons kv rest ih =>
    simp only [List.flatMap_cons, List.map_cons]
    have hlookup : lookupGroups gs (getWorkID (prepareSyncEvent kv.2)) = [] := by
      rw [getWorkID_prepare, h1 kv (by simp)]
      exact lookupGroups_eq_nil gs kv.1 (h2 kv (by simp))
    have hentry : newEntryPlan gs kv.2
        = [Call.insertEvent Target.personal (prepareSyncEvent kv.2)] := by
      simp only [newEntryPlan]
      rw [hlookup]
    rw [hentry, ih (fun x hx => h1 x (by simp [hx])) (fun x hx => h2 x (by simp [hx]))]
    rfl

/-! ## The combined mutation plan of a pass -/

/-- The update/delete calls of the pass (everything before the final
inserts). -/
def stage2MutOps (tmin tmax : Int) (snapshot : List Event)
    (M : List (String × Event)) : List Call :=
  ((untaggedOf snapshot).map (fun e => Call.deleteEvent Target.personal e.id)) ++
    (groupsPlan tmin tmax M (groupByWorkID snapshot)).1

theorem stage2Plan_decomp (tmin tmax : Int) (snapshot : List Event)
    (M : List (String × Event)) :
    stage2Plan tmin tmax snapshot M
      = stage2MutOps tmin tmax snapshot M ++
          newPlan (groupByWorkID snapshot)
            (groupsPlan tmin tmax M (groupByWorkID snapshot)).2 := by
  simp [stage2Plan, stage2MutOps, List.append_assoc]

theorem targetsOf_append (l1 l2 : List Call) :
    targetsOf (l1 ++ l2) = targetsOf l1 ++ targetsOf l2 := by
  simp [targetsOf, List.filterMap_append]

theorem targetsOf_deletes (es : List Event) :
    targetsOf (es.map (fun e => Call.deleteEvent Target.personal e.id)) = idsOf es := by
  induction es with
  | nil => rfl
  | cons e rest ih =>
    simp only [List.map_cons, targetsOf, List.filterMap_cons] at ih ⊢
    simp [opTarget?, idsOf] at ih ⊢
    exact ih

theorem flatMap_sublist_of_sublists {α β : Type} (l : List α) (f g : α → List β)
    (h : ∀ a ∈ l, (f a).Sublist (g a)) : (l.flatMap f).Sublist (l.flatMap g) := by
  induction l with
  | nil => simp
  | cons a rest ih =>
    simp only [List.flatMap_cons]
    exact List.Sublist.append (h a (by simp)) (ih (fun x hx => h x (by simp [hx])))

theorem groupSegment_eq_some (tmin tmax : Int) (M : List (String × Event))
    (kg : String × List Event) (src : Event) (h : smapLookup M kg.1 = some src) :
    groupSegment tmin tmax M kg
      = if eventsEqual (repOf tmin tmax kg.2) (prepareSyncEvent src) then []
        else [Call.updateEvent Target.personal (repOf tmin tmax kg.2).id
          (prepareSyncEvent src)] := by
  unfold groupSegment
  rw [h]

theorem groupSegment_eq_none (tmin tmax : Int) (M : List (String × Event))
    (kg : String × List Event) (h : smapLookup M kg.1 = none) :
    groupSegment tmin tmax M kg
      = kg.2.map (fun e => Call.deleteEvent Target.personal e.id) := by
  unfold groupSegment
  rw [h]

theorem targets_groupSegment_sublist (tmin tmax : Int) (M : List (String × Event))
    (kg : String × List Event) (hne : kg.2 ≠ []) :
    (targetsOf (groupSegment tmin tmax M kg)).Sublist (idsOf kg.2) := by
  cases hl : smapLookup M kg.1 with
  | some src =>
    rw [groupSegment_eq_some tmin tmax M kg src hl]
    cases heq : eventsEqual (repOf tmin tmax kg.2) (prepareSyncEvent src) with
    | true =>
      simp only [heq, if_true]
      exact List.nil_sublist _
    | false =>
      simp only [heq, Bool.false_eq_true, if_false]
      have htgt : targetsOf [Call.updateEvent Target.personal
          (repOf tmin tmax kg.2).id (prepareSyncEvent src)]
          = [(repOf tmin tmax kg.2).id] := by simp [targetsOf, opTarget?]
      rw [htgt]
      exact List.singleton_sublist.mpr
        (List.mem_map.mpr ⟨repOf tmin tmax kg.2, repOf_mem tmin tmax kg.2 hne, rfl⟩)
  | none =>
    rw [groupSegment_eq_none tmin tmax M kg hl, targetsOf_deletes]

theorem stage2MutOps_shape (tmin tmax : Int) (snapshot : List Event)
    (M : List (String × Event)) :
    ∀ c ∈ stage2MutOps tmin tmax snapshot M, (opTarget? c).isSome := by
  intro c hc
  rcases List.mem_append.mp hc with h | h
  · rcases List.mem_map.mp h with ⟨e, _, hce⟩
    rw [← hce]; simp [opTarget?]
  · rw [groupsPlan_calls tmin tmax _ M (groupKeys_nodup snapshot)] at h
    rcases List.mem_flatMap.mp h with ⟨kg, _, hseg⟩
    cases hl : smapLookup M kg.1 with
    | some src =>
      rw [groupSegment_eq_some tmin tmax M kg src hl] at hseg
      cases heq : eventsEqual (repOf tmin tmax kg.2) (prepareSyncEvent src) with
      | true =>
        simp only [heq, if_true] at hseg
        simp at hseg
      | false =>
        simp only [heq, Bool.false_eq_true, if_false] at hseg
        simp only [List.mem_singleton] at hseg
        rw [hseg]; simp [opTarget?]
    | none =>
      rw [groupSegment_eq_none tmin tmax M kg hl] at hseg
      rcases List.mem_map.mp hseg with ⟨e, _, hce⟩
      rw [← hce]; simp [opTarget?]

theorem stage2MutOps_targets_nodup (tmin tmax : Int) (snapshot : List Event)
    (M : List (String × Event)) (hids : (idsOf snapshot).Nodup) :
    (targetsOf (stage2MutOps tmin tmax snapshot M)).Nodup := by
  have hsub : (targetsOf (stage2MutOps tmin tmax snapshot M)).Sublist
      (idsOf (untaggedOf snapshot) ++
        ((groupByWorkID snapshot).flatMap (fun kg => idsOf kg.2))) := by
    unfold stage2MutOps
    rw [targetsOf_append, targetsOf_deletes]
    refine List.Sublist.append (List.Sublist.refl _) ?_
    rw [groupsPlan_calls tmin tmax _ M (groupKeys_nodup snapshot)]
    show ((groupByWorkID snapshot).flatMap (groupSegment tmin tmax M)).filterMap opTarget? |>.Sublist _
    rw [filterMap_flatMap_eq]
    apply flatMap_sublist_of_sublists
    intro kg hkg
    exact targets_groupSegment_sublist tmin tmax M kg
      (groupByWorkID_sound snapshot kg hkg).1
  have hperm : List.Perm
      (idsOf (untaggedOf snapshot) ++
        ((groupByWorkID snapshot).flatMap (fun kg => idsOf kg.2)))
      (idsOf snapshot) := by
    have h1 : (groupByWorkID snapshot).flatMap (fun kg => idsOf kg.2)
        = idsOf ((groupByWorkID snapshot).flatMap Prod.snd) := by
      simp only [idsOf, map_flatMap_eq]
    rw [h1]
    have h2 : List.Perm (idsOf ((groupByWorkID snapshot).flatMap Prod.snd))
        (idsOf (snapshot.filter (fun e => !(getWorkID e = "")))) :=
      (groupByWorkID_flat_perm snapshot).map Event.id
    have h3 : List.Perm
        (idsOf (untaggedOf snapshot) ++ idsOf ((groupByWorkID snapshot).flatMap Prod.snd))
        (idsOf (untaggedOf snapshot) ++ idsOf (snapshot.filter (fun e => !(getWorkID e = "")))) :=
      List.Perm.append_left _ h2
    refine h3.trans ?_
    have h4 : idsOf (untaggedOf snapshot) ++
        idsOf (snapshot.filter (fun e => !(getWorkID e = "")))
        = idsOf (untaggedOf snapshot ++ snapshot.filter (fun e => !(getWorkID e = ""))) := by
      simp [idsOf]
    rw [h4]
    refine List.Perm.map Event.id ?_
    exact List.filter_append_perm _ snapshot
  exact List.Nodup.sublist hsub (hperm.nodup_iff.mpr hids)

/-- Event-level effect of the full pass plan with all mutations succeeding:
pointwise surgery on the snapshot followed by the fresh inserts. -/
theorem stage2_apply (tmin tmax : Int) (snapshot : List Event)
    (M : List (String × Event)) (hids : (idsOf snapshot).Nodup)
    (hMids : ∀ kv ∈ M, kv.2.id = kv.1) :
    applyMuts (stage2Plan tmin tmax snapshot M) snapshot
      = snapshot.filterMap (applyOp (stage2MutOps tmin tmax snapshot M)) ++
          ((groupsPlan tmin tmax M (groupByWorkID snapshot)).2).map
            (fun kv => prepareSyncEvent kv.2) := by
  rw [stage2Plan_decomp, applyMuts_append]
  have hrem := groupsPlan_smap tmin tmax (groupByWorkID snapshot) M (groupKeys_nodup snapshot)
  have hnew : newPlan (groupByWorkID snapshot)
      (groupsPlan tmin tmax M (groupByWorkID snapshot)).2
      = ((groupsPlan tmin tmax M (groupByWorkID snapshot)).2).map
          (fun kv => Call.insertEvent Target.personal (prepareSyncEvent kv.2)) := by
    apply newPlan_all_inserts
    · intro kv hkv
      rw [hrem] at hkv
      exact hMids kv (List.mem_of_mem_filter hkv)
    · intro kv hkv
      rw [hrem] at hkv
      simpa using List.of_mem_filter hkv
  rw [hnew]
  have hmm : ((groupsPlan tmin tmax M (groupByWorkID snapshot)).2).map
        (fun kv => Call.insertEvent Target.personal (prepareSyncEvent kv.2))
      = (((groupsPlan tmin tmax M (groupByWorkID snapshot)).2).map
          (fun kv => prepareSyncEvent kv.2)).map
          (fun e => Call.insertEvent Target.personal e) := by
    rw [List.map_map]
    rfl
  rw [hmm, applyMuts_inserts]
  congr 1
  exact applyMuts_targeted _ snapshot (stage2MutOps_shape tmin tmax snapshot M)
    (stage2MutOps_targets_nodup tmin tmax snapshot M hids) hids

/-! ## Pointwise analysis of the targeted ops -/

theorem eq_of_ids_nodup (l : List Event) (h : (idsOf l).Nodup) (a b : Event)
    (ha : a ∈ l) (hb : b ∈ l) (hab : a.id = b.id) : a = b := by
  exact List.inj_on_of_nodup_map h ha hb hab

theorem applyOp_eq_self_of (ops : List Call) (e : Event)
    (h : ∀ c ∈ ops, opTarget? c ≠ some e.id) : applyOp ops e = some e := by
  unfold applyOp
  rw [findOp_eq_none ops e.id h]

theorem applyOp_eq_none_of (ops : List Call) (e : Event)
    (hex : ∃ c ∈ ops, opTarget? c = some e.id)
    (hsh : ∀ c ∈ ops, opTarget? c = some e.id → ∃ t i, c = Call.deleteEvent t i) :
    applyOp ops e = none := by
  unfold applyOp
  cases hfind : findOp ops e.id with
  | none =>
    rcases hex with ⟨c, hc, hct⟩
    have hsome : (ops.find? (fun c => opTarget? c = some e.id)).isSome :=
      List.find?_isSome.mpr ⟨c, hc, by simpa using hct⟩
    rw [show findOp ops e.id = ops.find? (fun c => opTarget? c = some e.id) from rfl] at hfind
    rw [hfind] at hsome
    simp at hsome
  | some c0 =>
    have hc0 : c0 ∈ ops := List.mem_of_find?_eq_some hfind
    have hct : opTarget? c0 = some e.id := by simpa using List.find?_some hfind
    rcases hsh c0 hc0 hct with ⟨t, i, rfl⟩
    rfl

theorem findOp_unique (ops : List Call) (e : Event) (c : Call) (hc : c ∈ ops)
    (hct : opTarget? c = some e.id)
    (huniq : ∀ c2 ∈ ops, opTarget? c2 = some e.id → c2 = c) :
    findOp ops e.id = some c := by
  induction ops with
  | nil => simp at hc
  | cons c1 rest ih =>
    by_cases h1 : opTarget? c1 = some e.id
    · rw [findOp_cons_hit c1 rest e.id h1]
      rw [huniq c1 (by simp) h1]
    · rw [findOp_cons_miss c1 rest e.id h1]
      rcases List.mem_cons.mp hc with hh | hh
      · exact absurd (hh ▸ hct) h1
      · exact ih hh (fun c2 h2 ht2 => huniq c2 (by simp [h2]) ht2)

/-- Provenance: every targeted op of the pass is either an
untagged-event delete or comes from some tracking-key group's segment. -/
theorem stage2MutOps_provenance (tmin tmax : Int) (snapshot : List Event)
    (M : List (String × Event)) :
    ∀ c ∈ stage2MutOps tmin tmax snapshot M,
      (∃ u ∈ untaggedOf snapshot, c = Call.deleteEvent Target.personal u.id) ∨
      (∃ kg ∈ groupByWorkID snapshot, c ∈ groupSegment tmin tmax M kg) := by
  intro c hc
  rcases List.mem_append.mp hc with h | h
  · left
    rcases List.mem_map.mp h with ⟨u, hu, hcu⟩
    exact ⟨u, hu, hcu.symm⟩
  · right
    rw [groupsPlan_calls tmin tmax _ M (groupKeys_nodup snapshot)] at h
    exact List.mem_flatMap.mp h

/-- Every op of a singleton group's segment targets that group's event. -/
theorem groupSegment_singleton_target (tmin tmax : Int) (M : List (String × Event))
    (k : String) (e2 : Event) (c : Call)
    (hc : c ∈ groupSegment tmin tmax M (k, [e2])) :
    opTarget? c = some e2.id := by
  cases hl : smapLookup M (k, [e2]).1 with
  | some src =>
    rw [groupSegment_eq_some tmin tmax M (k, [e2]) src hl] at hc
    by_cases heq : eventsEqual (repOf tmin tmax (k, [e2]).2) (prepareSyncEvent src)
    · rw [if_pos heq] at hc
      simp at hc
    · rw [if_neg heq] at hc
      simp only [List.mem_singleton] at hc
      rw [hc]
      show some (repOf tmin tmax (k, [e2]).2).id = some e2.id
      rw [show (k, [e2]).2 = [e2] from rfl, repOf_singleton]
  | none =>
    rw [groupSegment_eq_none tmin tmax M (k, [e2]) hl] at hc
    rcases List.mem_map.mp hc with ⟨x, hx, hcx⟩
    rw [show (k, [e2]).2 = [e2] from rfl, List.mem_singleton] at hx
    rw [← hcx, hx]
    rfl

theorem segment_sub_mutOps (tmin tmax : Int) (snapshot : List Event)
    (M : List (String × Event)) (kg : String × List Event)
    (hkg : kg ∈ groupByWorkID snapshot) :
    ∀ c ∈ groupSegment tmin tmax M kg, c ∈ stage2MutOps tmin tmax snapshot M := by
  intro c hc
  unfold stage2MutOps
  apply List.mem_append.mpr
  right
  rw [groupsPlan_calls tmin tmax _ M (groupKeys_nodup snapshot)]
  exact List.mem_flatMap.mpr ⟨kg, hkg, hc⟩

/-- The per-event outcome of one pass when the destination holds at most
one event per tracking key: untagged and stale events are deleted, a kept
event differing from the prepared source copy is overwritten in place,
matching events survive untouched. -/
def passTransform (M : List (String × Event)) (e : Event) : Option Event :=
  if getWorkID e = "" then none
  else
    match smapLookup M (getWorkID e) with
    | none => none
    | some src =>
      if eventsEqual e (prepareSyncEvent src) then some e
      else some { prepareSyncEvent src with id := e.id }

theorem applyOp_mutOps_singleton (tmin tmax : Int) (snapshot : List Event)
    (M : List (String × Event)) (hids : (idsOf snapshot).Nodup)
    (hkeys : (taggedKeys snapshot).Nodup) (e : Event) (he : e ∈ snapshot) :
    applyOp (stage2MutOps tmin tmax snapshot M) e = passTransform M e := by
  have hG7 := groupByWorkID_of_nodup_keys snapshot hkeys
  by_cases ht : getWorkID e = ""
  · have hu : e ∈ untaggedOf snapshot := List.mem_filter.mpr ⟨he, by simp [ht]⟩
    rw [applyOp_eq_none_of _ e ?hex ?hsh]
    · simp [passTransform, ht]
    case hex =>
      refine ⟨Call.deleteEvent Target.personal e.id, ?_, rfl⟩
      unfold stage2MutOps
      exact List.mem_append.mpr (Or.inl (List.mem_map.mpr ⟨e, hu, rfl⟩))
    case hsh =>
      intro c hc hct
      rcases stage2MutOps_provenance tmin tmax snapshot M c hc with ⟨u, _, rfl⟩ | ⟨kg, hkg, hcseg⟩
      · exact ⟨Target.personal, u.id, rfl⟩
      · rw [hG7] at hkg
        rcases List.mem_map.mp hkg with ⟨e2, he2, hkg2⟩
        rw [← hkg2] at hcseg
        have htgt := groupSegment_singleton_target tmin tmax M (getWorkID e2) e2 c hcseg
        rw [hct] at htgt
        have he2mem : e2 ∈ snapshot := List.mem_of_mem_filter he2
        have hee2 : e = e2 := eq_of_ids_nodup snapshot hids e e2 he he2mem (by simpa using htgt)
        have he2t : getWorkID e2 ≠ "" := by simpa using List.of_mem_filter he2
        rw [hee2] at ht
        exact absurd ht he2t
  · have hef : e ∈ snapshot.filter (fun x => !(getWorkID x = "")) :=
      List.mem_filter.mpr ⟨he, by simpa using ht⟩
    have hentry : (getWorkID e, [e]) ∈ groupByWorkID snapshot := by
      rw [hG7]
      exact List.mem_map.mpr ⟨e, hef, rfl⟩
    have hOnly : ∀ c ∈ stage2MutOps tmin tmax snapshot M,
        opTarget? c = some e.id →
        c ∈ groupSegment tmin tmax M (getWorkID e, [e]) := by
      intro c hc hct
      rcases stage2MutOps_provenance tmin tmax snapshot M c hc with ⟨u, hu, rfl⟩ | ⟨kg, hkg, hcseg⟩
      · have huid : u.id = e.id := by simpa [opTarget?] using hct
        have humem : u ∈ snapshot := List.mem_of_mem_filter hu
        have hue : u = e := eq_of_ids_nodup snapshot hids u e humem he huid
        have hut : getWorkID u = "" := by simpa using List.of_mem_filter hu
        exact absurd (hue ▸ hut) ht
      · rw [hG7] at hkg
        rcases List.mem_map.mp hkg with ⟨e2, he2, hkg2⟩
        rw [← hkg2] at hcseg
        have htgt := groupSegment_singleton_target tmin tmax M (getWorkID e2) e2 c hcseg
        rw [hct] at htgt
        have he2mem : e2 ∈ snapshot := List.mem_of_mem_filter he2
        have he2e : e2 = e := eq_of_ids_nodup snapshot hids e2 e he2mem he (by simpa using htgt.symm)
        rw [he2e] at hcseg
        exact hcseg
    cases hl : smapLookup M (getWorkID e) with
    | none =>
      have hseg : groupSegment tmin tmax M (getWorkID e, [e])
          = [Call.deleteEvent Target.personal e.id] := by
        rw [groupSegment_eq_none tmin tmax M (getWorkID e, [e]) hl]
        rfl
      rw [applyOp_eq_none_of _ e ?hex2 ?hsh2]
      · simp [passTransform, ht, hl]
      case hex2 =>
        refine ⟨Call.deleteEvent Target.personal e.id, ?_, rfl⟩
        apply segment_sub_mutOps tmin tmax snapshot M _ hentry
        rw [hseg]
        simp
      case hsh2 =>
        intro c hc hct
        have hmem := hOnly c hc hct
        rw [hseg] at hmem
        simp only [List.mem_singleton] at hmem
        exact ⟨Target.personal, e.id, hmem⟩
    | some src =>
      cases heq : eventsEqual e (prepareSyncEvent src) with
      | true =>
        have hseg : groupSegment tmin tmax M (getWorkID e, [e]) = [] := by
          rw [groupSegment_eq_some tmin tmax M (getWorkID e, [e]) src hl]
          rw [show ((getWorkID e, [e]) : String × List Event).2 = [e] from rfl,
            repOf_singleton, heq]
          rfl
        rw [applyOp_eq_self_of _ e ?hs]
        · simp [passTransform, ht, hl, heq]
        case hs =>
          intro c hc hct
          have hmem := hOnly c hc hct
          rw [hseg] at hmem
          simp at hmem
      | false =>
        have hseg : groupSegment tmin tmax M (getWorkID e, [e])
            = [Call.updateEvent Target.personal e.id (prepareSyncEvent src)] := by
          rw [groupSegment_eq_some tmin tmax M (getWorkID e, [e]) src hl]
          rw [show ((getWorkID e, [e]) : String × List Event).2 = [e] from rfl,
            repOf_singleton, heq]
          rfl
        have hcm : Call.updateEvent Target.personal e.id (prepareSyncEvent src)
            ∈ stage2MutOps tmin tmax snapshot M := by
          apply segment_sub_mutOps tmin tmax snapshot M _ hentry
          rw [hseg]
          simp
        have hfind := findOp_unique (stage2MutOps tmin tmax snapshot M) e
          (Call.updateEvent Target.personal e.id (prepareSyncEvent src)) hcm rfl
          (fun c2 hc2 ht2 => by
            have hmem := hOnly c2 hc2 ht2
            rw [hseg] at hmem
            simpa using hmem)
        unfold applyOp
        rw [hfind]
        simp [passTransform, ht, hl, heq]

/-- The pass closed form, singleton-group case. -/
theorem stage2_apply_singleton (tmin tmax : Int) (snapshot : List Event)
    (M : List (String × Event)) (hids : (idsOf snapshot).Nodup)
    (hkeys : (taggedKeys snapshot).Nodup) (hMids : ∀ kv ∈ M, kv.2.id = kv.1) :
    applyMuts (stage2Plan tmin tmax snapshot M) snapshot
      = snapshot.filterMap (passTransform M) ++
          ((groupsPlan tmin tmax M (groupByWorkID snapshot)).2).map
            (fun kv => prepareSyncEvent kv.2) := by
  rw [stage2_apply tmin tmax snapshot M hids hMids]
  congr 1
  exact filterMap_congr_mem snapshot _ _
    (fun e he => applyOp_mutOps_singleton tmin tmax snapshot M hids hkeys e he)

/-! ## Unfolding one pass -/

/-- Destination state after the best-effort reminder upsert. -/
def destAfterReminder (p : Params) (dest0 : List Event) (oracle : Nat → Bool) : List Event :=
  (applyPlan oracle 0 dest0 (reminderPlan dest0 p.reminder)).1

theorem runSync_success (p : Params) (dest0 : List Event) (oracle : Nat → Bool)
    (hfind : p.findCalOk = true) (hsrc : p.sourceFetchOk = true)
    (hdst : p.destFetchOk = true)
    (hgate : p.gateFetchOk = false ∨
      untaggedCount (destAfterReminder p dest0 oracle) = 0 ∨
      promptForConfirmation p.interactive p.stdin = true) :
    runSync p dest0 oracle =
      { calls := (([Call.findOrCreateCalendar Target.personal] ++
            reminderPlan dest0 p.reminder ++ [Call.getEvents Target.personal] ++
            [Call.getEvents Target.work]) ++
            parentLookupCalls p.workEvents ++ [Call.getEvents Target.personal]) ++
          stage2Plan (timeMinD p).instant (timeMaxD p).instant
            (destAfterReminder p dest0 oracle) (smapOf p),
        dest := (applyPlan oracle (applyPlan oracle 0 dest0 (reminderPlan dest0 p.reminder)).2
            (destAfterReminder p dest0 oracle)
            (stage2Plan (timeMinD p).instant (timeMaxD p).instant
              (destAfterReminder p dest0 oracle) (smapOf p))).1,
        err := none } := by
  have hgateR : (p.gateFetchOk &&
      decide (untaggedCount (destAfterReminder p dest0 oracle) > 0) &&
      !promptForConfirmation p.interactive p.stdin) = false := by
    rcases hgate with h | h | h
    · simp [h]
    · simp [h]
    · simp [h]
  unfold runSync
  rw [hfind]
  simp only [Bool.not_true, Bool.false_eq_true, if_false]
  rw [show (applyPlan oracle 0 dest0 (reminderPlan dest0 p.reminder)).1
      = destAfterReminder p dest0 oracle from rfl]
  rw [hgateR]
  simp only [Bool.false_eq_true, if_false]
  rw [hsrc]
  simp only [Bool.not_true, Bool.false_eq_true, if_false]
  rw [hdst]
  simp only [Bool.not_true, Bool.false_eq_true, if_false]
  rfl

/-! ## The convergence invariant -/

/-- A destination state that matches the filtered source index: every event
is tagged, keys are unique, every event agrees (by `eventsEqual`) with the
prepared copy of its source event, and every index entry is represented. -/
def Converged (M : List (String × Event)) (l : List Event) : Prop :=
  (∀ e ∈ l, getWorkID e ≠ "") ∧
  (l.map getWorkID).Nodup ∧
  (∀ e ∈ l, ∃ src, smapLookup M (getWorkID e) = some src ∧
    eventsEqual e (prepareSyncEvent src) = true) ∧
  (∀ kv ∈ M, kv.1 ∈ l.map getWorkID)

/-- A converged destination produces an empty mutation plan. -/
theorem stage2Plan_of_converged (tmin tmax : Int) (M : List (String × Event))
    (l : List Event) (h : Converged M l) : stage2Plan tmin tmax l M = [] := by
  obtain ⟨h1, h2, h3, h4⟩ := h
  have hfilter : l.filter (fun e => !(getWorkID e = "")) = l :=
    List.filter_eq_self.mpr (fun e he => by simpa using h1 e he)
  have hkeys : (taggedKeys l).Nodup := by
    unfold taggedKeys
    rw [hfilter]
    exact h2
  have hG := groupByWorkID_of_nodup_keys l hkeys
  rw [hfilter] at hG
  have hgs : (groupByWorkID l).map Prod.fst = l.map getWorkID := by
    rw [hG, List.map_map]
    rfl
  have huntag : untaggedOf l = [] := by
    unfold untaggedOf
    rw [List.filter_eq_nil_iff.mpr (fun e he => by simpa using h1 e he)]
  have hsegs : ∀ kg ∈ groupByWorkID l, groupSegment tmin tmax M kg = [] := by
    intro kg hkg
    rw [hG] at hkg
    rcases List.mem_map.mp hkg with ⟨e, he, hkge⟩
    rcases h3 e he with ⟨src, hlook, heq⟩
    rw [← hkge]
    rw [groupSegment_eq_some tmin tmax M (getWorkID e, [e]) src hlook]
    rw [show ((getWorkID e, [e]) : String × List Event).2 = [e] from rfl,
      repOf_singleton, heq]
    simp
  have hcalls : (groupsPlan tmin tmax M (groupByWorkID l)).1 = [] := by
    rw [groupsPlan_calls tmin tmax _ M (groupKeys_nodup l)]
    rw [flatMap_congr_mem _ _ (fun _ => []) hsegs]
    simp
  have hrem : (groupsPlan tmin tmax M (groupByWorkID l)).2 = [] := by
    rw [groupsPlan_smap tmin tmax _ M (groupKeys_nodup l)]
    rw [List.filter_eq_nil_iff.mpr ?_]
    intro kv hkv
    have hmem : kv.1 ∈ (groupByWorkID l).map Prod.fst := by
      rw [hgs]
      exact h4 kv hkv
    simp [hmem]
  simp only [stage2Plan]
  rw [huntag, hcalls, hrem]
  rfl

theorem lookupCallsFor_cases (e : Event) :
    lookupCallsFor e = [] ∨
    lookupCallsFor e = [Call.getEvent Target.work e.recurringEventId] := by
  unfold lookupCallsFor
  cases e.start with
  | none => left; rfl
  | some edt =>
    cases edt with
    | date d => left; rfl
    | dateTime r t =>
      by_cases h1 : e.eventType = "outOfOffice"
      · left; simp [h1]
      · by_cases h2 : e.recurringEventId ≠ ""
        · right; simp [h1, h2]
        · left; simp [h1, h2]
    | badDateTime r =>
      by_cases h1 : e.eventType = "outOfOffice"
      · left; simp [h1]
      · by_cases h2 : e.recurringEventId ≠ ""
        · right; simp [h1, h2]
        · left; simp [h1, h2]
    | empty =>
      by_cases h1 : e.eventType = "outOfOffice"
      · left; simp [h1]
      · by_cases h2 : e.recurringEventId ≠ ""
        · right; simp [h1, h2]
        · left; simp [h1, h2]

theorem parentLookupCalls_shape (ws : List Event) :
    ∀ c ∈ parentLookupCalls ws, ∃ i, c = Call.getEvent Target.work i := by
  intro c hc
  rcases List.mem_flatMap.mp hc with ⟨e, _, hce⟩
  rcases lookupCallsFor_cases e with h | h
  · rw [h] at hce; simp at hce
  · rw [h] at hce
    simp only [List.mem_singleton] at hce
    exact ⟨e.recurringEventId, hce⟩

theorem runSync_converged (p : Params) (D : List Event) (oracle : Nat → Bool)
    (hfind : p.findCalOk = true) (hsrc : p.sourceFetchOk = true)
    (hdst : p.destFetchOk = true) (hrem : p.reminder = none)
    (hconv : Converged (smapOf p) D) :
    (runSync p D oracle).err = none ∧
    mutationCalls ((runSync p D oracle).calls) = [] := by
  have hDAR : destAfterReminder p D oracle = D := by
    unfold destAfterReminder
    rw [hrem]
    rfl
  have hgate : untaggedCount (destAfterReminder p D oracle) = 0 := by
    rw [hDAR]
    unfold untaggedCount untaggedOf
    rw [List.filter_eq_nil_iff.mpr (fun e he => by simpa using hconv.1 e he)]
    rfl
  rw [runSync_success p D oracle hfind hsrc hdst (Or.inr (Or.inl hgate))]
  refine ⟨rfl, ?_⟩
  show mutationCalls _ = []
  rw [hDAR, stage2Plan_of_converged _ _ (smapOf p) D hconv, hrem]
  unfold mutationCalls
  rw [List.filter_eq_nil_iff.mpr ?_]
  intro c hc
  rcases List.mem_append.mp hc with h | h
  swap
  · exact absurd h (List.not_mem_nil c)
  rcases List.mem_append.mp h with h | h
  swap
  · obtain rfl := List.mem_singleton.mp h
    simp [Call.isMutation]
  rcases List.mem_append.mp h with h | h
  swap
  · rcases parentLookupCalls_shape p.workEvents c h with ⟨i, rfl⟩
    simp [Call.isMutation]
  rcases List.mem_append.mp h with h | h
  swap
  · obtain rfl := List.mem_singleton.mp h
    simp [Call.isMutation]
  rcases List.mem_append.mp h with h | h
  swap
  · obtain rfl := List.mem_singleton.mp h
    simp [Call.isMutation]
  rcases List.mem_append.mp h with h | h
  · obtain rfl := List.mem_singleton.mp h
    simp [Call.isMutation]
  · simp [reminderPlan] at h

/-! ## The state after one completed pass -/

theorem smapLookup_of_mem_nodup (M : List (String × Event))
    (hkeys : (M.map Prod.fst).Nodup) :
    ∀ kv ∈ M, smapLookup M kv.1 = some kv.2 := by
  induction M with
  | nil => intro kv hkv; simp at hkv
  | cons g rest ih =>
    intro kv hkv
    simp only [List.map_cons, List.nodup_cons] at hkeys
    rcases List.mem_cons.mp hkv with h | h
    · subst h
      simp [smapLookup, List.find?]
    · have hne : ¬(g.1 = kv.1) := by
        intro habs
        exact hkeys.1 (habs ▸ List.mem_map.mpr ⟨kv, h, rfl⟩)
      simp only [smapLookup, List.find?]
      rw [show (decide (g.1 = kv.1)) = false by simpa using hne]
      exact ih hkeys.2 kv h

theorem filterEvents_start_shape (look : ParentLookup) (l : List Event) :
    ∀ e ∈ filterEvents look l,
      e.start ≠ none ∧ e.start ≠ some EDT.empty ∧
      (∀ r, e.start ≠ some (EDT.badDateTime r)) := by
  intro e he
  have hkeep : keepEvent look e = true := List.of_mem_filter he
  cases hs : e.start with
  | none => rw [keepEvent, hs] at hkeep; simp at hkeep
  | some edt =>
    cases edt with
    | date d => exact ⟨by simp, by simp [hs], fun r => by simp [hs]⟩
    | dateTime r t => exact ⟨by simp, by simp [hs], fun r2 => by simp [hs]⟩
    | badDateTime r =>
      rw [keepEvent, hs] at hkeep
      by_cases ho : isOutOfOffice e look
      · rw [if_pos ho] at hkeep; simp at hkeep
      · rw [if_neg ho] at hkeep; simp at hkeep
    | empty =>
      rw [keepEvent, hs] at hkeep
      by_cases ho : isOutOfOffice e look
      · rw [if_pos ho] at hkeep; simp at hkeep
      · rw [if_neg ho] at hkeep; simp at hkeep

theorem taggedKeys_cons (a : Event) (rest : List Event) :
    taggedKeys (a :: rest) =
      if getWorkID a = "" then taggedKeys rest
      else getWorkID a :: taggedKeys rest := by
  by_cases h : getWorkID a = "" <;> simp [taggedKeys, List.filter_cons, h]

theorem passTransform_untagged (M : List (String × Event)) (e : Event)
    (ht : getWorkID e = "") : passTransform M e = none := by
  unfold passTransform
  rw [if_pos ht]

theorem passTransform_stale (M : List (String × Event)) (e : Event)
    (ht : getWorkID e ≠ "") (hl : smapLookup M (getWorkID e) = none) :
    passTransform M e = none := by
  unfold passTransform
  rw [if_neg ht, hl]

theorem passTransform_hit (M : List (String × Event)) (e src : Event)
    (ht : getWorkID e ≠ "") (hl : smapLookup M (getWorkID e) = some src) :
    passTransform M e
      = if eventsEqual e (prepareSyncEvent src) then some e
        else some { prepareSyncEvent src with id := e.id } := by
  unfold passTransform
  rw [if_neg ht, hl]

theorem passTransform_some_key (M : List (String × Event))
    (hMids : ∀ kv ∈ M, kv.2.id = kv.1) (e e2 : Event)
    (h : passTransform M e = some e2) :
    getWorkID e2 = getWorkID e ∧ getWorkID e ≠ "" := by
  by_cases ht : getWorkID e = ""
  · rw [passTransform_untagged M e ht] at h; simp at h
  · cases hl : smapLookup M (getWorkID e) with
    | none => rw [passTransform_stale M e ht hl] at h; simp at h
    | some src =>
      rw [passTransform_hit M e src ht hl] at h
      have hsrcid : src.id = getWorkID e :=
        hMids (getWorkID e, src) (smapLookup_mem M (getWorkID e) src hl)
      by_cases heq : eventsEqual e (prepareSyncEvent src)
      · rw [if_pos heq] at h
        obtain rfl := Option.some.inj h
        exact ⟨rfl, ht⟩
      · rw [if_neg heq] at h
        obtain rfl := Option.some.inj h
        refine ⟨?_, ht⟩
        show getWorkID (prepareSyncEvent src) = getWorkID e
        rw [getWorkID_prepare, hsrcid]

theorem passTransform_some_match (M : List (String × Event))
    (hMids : ∀ kv ∈ M, kv.2.id = kv.1)
    (hM3 : ∀ kv ∈ M, kv.2.start ≠ some EDT.empty ∧ kv.2.stop ≠ some EDT.empty)
    (e e2 : Event) (h : passTransform M e = some e2) :
    ∃ src, smapLookup M (getWorkID e2) = some src ∧
      eventsEqual e2 (prepareSyncEvent src) = true := by
  have hkey := passTransform_some_key M hMids e e2 h
  cases hl : smapLookup M (getWorkID e) with
  | none => rw [passTransform_stale M e hkey.2 hl] at h; simp at h
  | some src =>
    rw [passTransform_hit M e src hkey.2 hl] at h
    have hsm := smapLookup_mem M (getWorkID e) src hl
    have hne := hM3 (getWorkID e, src) hsm
    refine ⟨src, by rw [hkey.1]; exact hl, ?_⟩
    by_cases heq : eventsEqual e (prepareSyncEvent src)
    · rw [if_pos heq] at h
      obtain rfl := Option.some.inj h
      exact heq
    · rw [if_neg heq] at h
      obtain rfl := Option.some.inj h
      rw [eventsEqual_set_id]
      exact eventsEqual_refl (prepareSyncEvent src)
        (by show src.start ≠ some EDT.empty; exact hne.1)
        (by show src.stop ≠ some EDT.empty; exact hne.2)

theorem keys_filterMap_passTransform_sublist (M : List (String × Event))
    (hMids : ∀ kv ∈ M, kv.2.id = kv.1) (l : List Event) :
    ((l.filterMap (passTransform M)).map getWorkID).Sublist (taggedKeys l) := by
  induction l with
  | nil => simp [taggedKeys]
  | cons a rest ih =>
    rw [taggedKeys_cons]
    cases hpt : passTransform M a with
    | none =>
      rw [List.filterMap_cons_none hpt]
      by_cases ht : getWorkID a = ""
      · rw [if_pos ht]; exact ih
      · rw [if_neg ht]; exact ih.cons _
    | some e2 =>
      have hkey := passTransform_some_key M hMids a e2 hpt
      rw [List.filterMap_cons_some hpt]
      rw [if_neg hkey.2]
      simp only [List.map_cons]
      rw [hkey.1]
      exact ih.cons₂ _

theorem exists_tagged_of_mem_groupKeys (l : List Event) (k : String)
    (h : k ∈ (groupByWorkID l).map Prod.fst) :
    ∃ e ∈ l, getWorkID e = k := by
  rcases List.mem_map.mp h with ⟨kg, hkg, hfst⟩
  rcases groupByWorkID_sound l kg hkg with ⟨hne, _, hmem⟩
  cases hg : kg.2 with
  | nil => exact absurd hg hne
  | cons e0 grest =>
    have he0 : e0 ∈ kg.2 := by rw [hg]; simp
    exact ⟨e0, (hmem e0 he0).2, by rw [(hmem e0 he0).1, hfst]⟩

/-- After one completed pass whose mutations all succeeded (no token
reminder due, no duplicate tracking keys or event ids on the destination,
well-formed source ids and end times), the destination state matches the
filtered source index. -/
theorem pass1_converged (p : Params) (dest0 : List Event)
    (hfind : p.findCalOk = true) (hsrc : p.sourceFetchOk = true)
    (hdst : p.destFetchOk = true) (hrem : p.reminder = none)
    (hgate : untaggedCount dest0 = 0 ∨
      promptForConfirmation p.interactive p.stdin = true)
    (hids : (idsOf dest0).Nodup) (hkeys : (taggedKeys dest0).Nodup)
    (hsrcids : ∀ e ∈ p.workEvents, e.id ≠ "")
    (hstops : ∀ e ∈ p.workEvents, e.stop ≠ some EDT.empty) :
    Converged (smapOf p) ((runSync p dest0 allOk).dest) := by
  have hMids : ∀ kv ∈ smapOf p, kv.2.id = kv.1 :=
    fun kv hkv => (mkSourceMap_mem _ kv hkv).2
  have hMsrc : ∀ kv ∈ smapOf p, kv.2 ∈ filterEvents p.parent p.workEvents :=
    fun kv hkv => (mkSourceMap_mem _ kv hkv).1
  have hMw : ∀ kv ∈ smapOf p, kv.2 ∈ p.workEvents := by
    intro kv hkv
    have h2 : kv.2 ∈ p.workEvents.filter (keepEvent p.parent) := hMsrc kv hkv
    exact List.mem_of_mem_filter h2
  have hMkeys : ((smapOf p).map Prod.fst).Nodup := mkSourceMap_keys_nodup _
  have hMkne : ∀ kv ∈ smapOf p, kv.1 ≠ "" := by
    intro kv hkv
    rw [← hMids kv hkv]
    exact hsrcids kv.2 (hMw kv hkv)
  have hM3 : ∀ kv ∈ smapOf p,
      kv.2.start ≠ some EDT.empty ∧ kv.2.stop ≠ some EDT.empty := by
    intro kv hkv
    exact ⟨(filterEvents_start_shape p.parent p.workEvents kv.2 (hMsrc kv hkv)).2.1,
      hstops kv.2 (hMw kv hkv)⟩
  have hDAR : destAfterReminder p dest0 allOk = dest0 := by
    unfold destAfterReminder
    rw [hrem]
    rfl
  have hgate2 : p.gateFetchOk = false ∨
      untaggedCount (destAfterReminder p dest0 allOk) = 0 ∨
      promptForConfirmation p.interactive p.stdin = true := by
    rw [hDAR]
    rcases hgate with h | h
    · exact Or.inr (Or.inl h)
    · exact Or.inr (Or.inr h)
  rw [runSync_success p dest0 allOk hfind hsrc hdst hgate2]
  show Converged (smapOf p) (applyPlan allOk _ _ _).1
  rw [applyPlan_fst_allOk, hDAR]
  rw [stage2_apply_singleton _ _ dest0 (smapOf p) hids hkeys hMids]
  set M := smapOf p with hM
  set rem := (groupsPlan (timeMinD p).instant (timeMaxD p).instant M
    (groupByWorkID dest0)).2 with hremdef
  have hremfilter : rem = M.filter
      (fun kv => !(kv.1 ∈ (groupByWorkID dest0).map Prod.fst)) := by
    rw [hremdef]
    exact groupsPlan_smap _ _ _ M (groupKeys_nodup dest0)
  have hremsub : ∀ kv ∈ rem, kv ∈ M := by
    intro kv hkv
    rw [hremfilter] at hkv
    exact List.mem_of_mem_filter hkv
  have hremkey : ∀ kv ∈ rem, kv.1 ∉ (groupByWorkID dest0).map Prod.fst := by
    intro kv hkv
    rw [hremfilter] at hkv
    simpa using List.of_mem_filter hkv
  refine ⟨?_, ?_, ?_, ?_⟩
  · intro e he
    rcases List.mem_append.mp he with h | h
    · rcases List.mem_filterMap.mp h with ⟨a, _, hpt⟩
      have hkey := passTransform_some_key M hMids a e hpt
      rw [hkey.1]
      exact hkey.2
    · rcases List.mem_map.mp h with ⟨kv, hkv, rfl⟩
      rw [getWorkID_prepare, hMids kv (hremsub kv hkv)]
      exact hMkne kv (hremsub kv hkv)
  · rw [List.map_append]
    have hA : ((dest0.filterMap (passTransform M)).map getWorkID).Nodup :=
      List.Nodup.sublist (keys_filterMap_passTransform_sublist M hMids dest0) hkeys
    have hBeq : (rem.map (fun kv => prepareSyncEvent kv.2)).map getWorkID
        = rem.map Prod.fst := by
      rw [List.map_map]
      apply List.map_congr_left
      intro kv hkv
      show getWorkID (prepareSyncEvent kv.2) = kv.1
      rw [getWorkID_prepare]
      exact hMids kv (hremsub kv hkv)
    have hB : ((rem.map (fun kv => prepareSyncEvent kv.2)).map getWorkID).Nodup := by
      rw [hBeq, hremfilter]
      exact List.Nodup.sublist (List.Sublist.map Prod.fst (List.filter_sublist M)) hMkeys
    refine List.Nodup.append hA hB ?_
    intro k hkA hkB
    rw [hBeq] at hkB
    rcases List.mem_map.mp hkA with ⟨e, heA, hke⟩
    rcases List.mem_filterMap.mp heA with ⟨a, ha, hpt⟩
    have hkey := passTransform_some_key M hMids a e hpt
    have hkgrp : k ∈ (groupByWorkID dest0).map Prod.fst := by
      rw [← hke, hkey.1]
      exact mem_groupKeys_of_tagged dest0 a ha hkey.2
    rcases List.mem_map.mp hkB with ⟨kv, hkv, hkvk⟩
    exact hremkey kv hkv (by rw [hkvk]; exact hkgrp)
  · intro e he
    rcases List.mem_append.mp he with h | h
    · rcases List.mem_filterMap.mp h with ⟨a, _, hpt⟩
      exact passTransform_some_match M hMids hM3 a e hpt
    · rcases List.mem_map.mp h with ⟨kv, hkv, rfl⟩
      refine ⟨kv.2, ?_, ?_⟩
      · rw [getWorkID_prepare, hMids kv (hremsub kv hkv)]
        exact smapLookup_of_mem_nodup M hMkeys kv (hremsub kv hkv)
      · have hne := hM3 kv (hremsub kv hkv)
        exact eventsEqual_refl (prepareSyncEvent kv.2)
          (by show kv.2.start ≠ some EDT.empty; exact hne.1)
          (by show kv.2.stop ≠ some EDT.empty; exact hne.2)
  · intro kv hkv
    rw [List.map_append]
    apply List.mem_append.mpr
    by_cases hkgrp : kv.1 ∈ (groupByWorkID dest0).map Prod.fst
    · left
      rcases exists_tagged_of_mem_groupKeys dest0 kv.1 hkgrp with ⟨a, ha, hka⟩
      have hta : getWorkID a ≠ "" := by rw [hka]; exact hMkne kv hkv
      have hlook : smapLookup M (getWorkID a) = some kv.2 := by
        rw [hka]
        exact smapLookup_of_mem_nodup M hMkeys kv hkv
      have hsome : ∃ e2, passTransform M a = some e2 := by
        rw [passTransform_hit M a kv.2 hta hlook]
        by_cases heq : eventsEqual a (prepareSyncEvent kv.2)
        · rw [if_pos heq]; exact ⟨a, rfl⟩
        · rw [if_neg heq]; exact ⟨_, rfl⟩
      rcases hsome with ⟨e2, hpt⟩
      have hkey := passTransform_some_key M hMids a e2 hpt
      refine List.mem_map.mpr ⟨e2, List.mem_filterMap.mpr ⟨a, ha, hpt⟩, ?_⟩
      rw [hkey.1, hka]
    · right
      have hkvrem : kv ∈ rem := by
        rw [hremfilter]
        exact List.mem_filter.mpr ⟨hkv, by simpa using hkgrp⟩
      refine List.mem_map.mpr ⟨prepareSyncEvent kv.2,
        List.mem_map.mpr ⟨kv, hkvrem, rfl⟩, ?_⟩
      rw [getWorkID_prepare]
      exact hMids kv hkv

/-! ## General per-event outcome (arbitrary group sizes) -/

theorem groupSegment_update_shape (tmin tmax : Int) (M : List (String × Event))
    (kg : String × List Event) (t : Target) (i : String) (new : Event)
    (h : Call.updateEvent t i new ∈ groupSegment tmin tmax M kg) :
    ∃ src, smapLookup M kg.1 = some src ∧ new = prepareSyncEvent src ∧
      i = (repOf tmin tmax kg.2).id := by
  cases hl : smapLookup M kg.1 with
  | some src =>
    rw [groupSegment_eq_some tmin tmax M kg src hl] at h
    by_cases heq : eventsEqual (repOf tmin tmax kg.2) (prepareSyncEvent src)
    · rw [if_pos heq] at h; simp at h
    · rw [if_neg heq] at h
      simp only [List.mem_singleton, Call.updateEvent.injEq] at h
      exact ⟨src, rfl, h.2.2, h.2.1⟩
  | none =>
    rw [groupSegment_eq_none tmin tmax M kg hl] at h
    rcases List.mem_map.mp h with ⟨x, _, hx⟩
    simp at hx

theorem groupSegment_delete_shape (tmin tmax : Int) (M : List (String × Event))
    (kg : String × List Event) (t : Target) (i : String)
    (h : Call.deleteEvent t i ∈ groupSegment tmin tmax M kg) :
    smapLookup M kg.1 = none ∧ i ∈ idsOf kg.2 := by
  cases hl : smapLookup M kg.1 with
  | some src =>
    rw [groupSegment_eq_some tmin tmax M kg src hl] at h
    by_cases heq : eventsEqual (repOf tmin tmax kg.2) (prepareSyncEvent src)
    · rw [if_pos heq] at h; simp at h
    · rw [if_neg heq] at h; simp at h
  | none =>
    rw [groupSegment_eq_none tmin tmax M kg hl] at h
    rcases List.mem_map.mp h with ⟨x, hx, hcx⟩
    simp only [Call.deleteEvent.injEq] at hcx
    exact ⟨rfl, List.mem_map.mpr ⟨x, hx, hcx.2⟩⟩

theorem exists_group_of_tagged (l : List Event) (e : Event) (he : e ∈ l)
    (ht : getWorkID e ≠ "") :
    ∃ g, (getWorkID e, g) ∈ groupByWorkID l ∧ e ∈ g := by
  have hmem : e ∈ (groupByWorkID l).flatMap Prod.snd :=
    (groupByWorkID_flat_perm l).mem_iff.mpr
      (List.mem_filter.mpr ⟨he, by simpa using ht⟩)
  rcases List.mem_flatMap.mp hmem with ⟨kg, hkg, heg⟩
  rcases groupByWorkID_sound l kg hkg with ⟨_, _, h3⟩
  refine ⟨kg.2, ?_, heg⟩
  rw [(h3 e heg).1]
  exact hkg

/-- Untagged snapshot events are deleted (general). -/
theorem applyOp_untagged_none (tmin tmax : Int) (snapshot : List Event)
    (M : List (String × Event)) (hids : (idsOf snapshot).Nodup) (e : Event)
    (he : e ∈ snapshot) (ht : getWorkID e = "") :
    applyOp (stage2MutOps tmin tmax snapshot M) e = none := by
  have hu : e ∈ untaggedOf snapshot := List.mem_filter.mpr ⟨he, by simp [ht]⟩
  apply applyOp_eq_none_of
  · refine ⟨Call.deleteEvent Target.personal e.id, ?_, rfl⟩
    unfold stage2MutOps
    exact List.mem_append.mpr (Or.inl (List.mem_map.mpr ⟨e, hu, rfl⟩))
  · intro c hc hct
    rcases stage2MutOps_provenance tmin tmax snapshot M c hc with ⟨u, _, rfl⟩ | ⟨kg, hkg, hcseg⟩
    · exact ⟨Target.personal, u.id, rfl⟩
    · cases c with
      | deleteEvent t i => exact ⟨t, i, rfl⟩
      | updateEvent t i new =>
        rcases groupSegment_update_shape tmin tmax M kg t i new hcseg with ⟨src, _, _, hi⟩
        have hne : kg.2 ≠ [] := (groupByWorkID_sound snapshot kg hkg).1
        have hrep := repOf_mem tmin tmax kg.2 hne
        have hrepmem : repOf tmin tmax kg.2 ∈ snapshot :=
          ((groupByWorkID_sound snapshot kg hkg).2.2 _ hrep).2
        have hrepid : (repOf tmin tmax kg.2).id = e.id := by
          have : opTarget? (Call.updateEvent t i new) = some i := rfl
          rw [this] at hct
          rw [← hi]
          simpa using hct
        have hrepe : repOf tmin tmax kg.2 = e :=
          eq_of_ids_nodup snapshot hids _ e hrepmem he hrepid
        have hrepkey : getWorkID (repOf tmin tmax kg.2) = kg.1 :=
          ((groupByWorkID_sound snapshot kg hkg).2.2 _ hrep).1
        rw [hrepe, ht] at hrepkey
        exact absurd hrepkey.symm (groupByWorkID_sound snapshot kg hkg).2.1
      | insertEvent t x => simp [opTarget?] at hct
      | getEvents t => simp [opTarget?] at hct
      | getEvent t i => simp [opTarget?] at hct
      | findEventsByWorkID t k => simp [opTarget?] at hct
      | findOrCreateCalendar t => simp [opTarget?] at hct

/-- Tagged snapshot events whose key is absent from the source index are
deleted (general). -/
theorem applyOp_stale_none (tmin tmax : Int) (snapshot : List Event)
    (M : List (String × Event)) (hids : (idsOf snapshot).Nodup) (e : Event)
    (he : e ∈ snapshot) (ht : getWorkID e ≠ "")
    (hl : smapLookup M (getWorkID e) = none) :
    applyOp (stage2MutOps tmin tmax snapshot M) e = none := by
  rcases exists_group_of_tagged snapshot e he ht with ⟨g, hg, heg⟩
  apply applyOp_eq_none_of
  · refine ⟨Call.deleteEvent Target.personal e.id, ?_, rfl⟩
    apply segment_sub_mutOps tmin tmax snapshot M _ hg
    rw [groupSegment_eq_none tmin tmax M (getWorkID e, g) hl]
    exact List.mem_map.mpr ⟨e, heg, rfl⟩
  · intro c hc hct
    rcases stage2MutOps_provenance tmin tmax snapshot M c hc with ⟨u, _, rfl⟩ | ⟨kg, hkg, hcseg⟩
    · exact ⟨Target.personal, u.id, rfl⟩
    · cases c with
      | deleteEvent t i => exact ⟨t, i, rfl⟩
      | updateEvent t i new =>
        rcases groupSegment_update_shape tmin tmax M kg t i new hcseg with ⟨src, hlsome, _, hi⟩
        have hne : kg.2 ≠ [] := (groupByWorkID_sound snapshot kg hkg).1
        have hrep := repOf_mem tmin tmax kg.2 hne
        have hrepmem : repOf tmin tmax kg.2 ∈ snapshot :=
          ((groupByWorkID_sound snapshot kg hkg).2.2 _ hrep).2
        have hrepid : (repOf tmin tmax kg.2).id = e.id := by
          have hop : opTarget? (Call.updateEvent t i new) = some i := rfl
          rw [hop] at hct
          rw [← hi]
          simpa using hct
        have hrepe : repOf tmin tmax kg.2 = e :=
          eq_of_ids_nodup snapshot hids _ e hrepmem he hrepid
        have hrepkey : getWorkID (repOf tmin tmax kg.2) = kg.1 :=
          ((groupByWorkID_sound snapshot kg hkg).2.2 _ hrep).1
        rw [hrepe] at hrepkey
        rw [hrepkey] at hl
        rw [hl] at hlsome
        exact absurd hlsome (by simp)
      | insertEvent t x => simp [opTarget?] at hct
      | getEvents t => simp [opTarget?] at hct
      | getEvent t i => simp [opTarget?] at hct
      | findEventsByWorkID t k => simp [opTarget?] at hct
      | findOrCreateCalendar t => simp [opTarget?] at hct

/-- Tagged snapshot events whose key is in the source index survive with
their key unchanged (general). -/
theorem applyOp_hit_some (tmin tmax : Int) (snapshot : List Event)
    (M : List (String × Event)) (hids : (idsOf snapshot).Nodup)
    (hMids : ∀ kv ∈ M, kv.2.id = kv.1) (e src : Event)
    (he : e ∈ snapshot) (ht : getWorkID e ≠ "")
    (hl : smapLookup M (getWorkID e) = some src) :
    ∃ e2, applyOp (stage2MutOps tmin tmax snapshot M) e = some e2 ∧
      getWorkID e2 = getWorkID e := by
  cases hfind : findOp (stage2MutOps tmin tmax snapshot M) e.id with
  | none =>
    refine ⟨e, ?_, rfl⟩
    unfold applyOp
    rw [hfind]
  | some c =>
    have hcm : c ∈ stage2MutOps tmin tmax snapshot M := List.mem_of_find?_eq_some hfind
    have hct : opTarget? c = some e.id := by simpa using List.find?_some hfind
    cases c with
    | deleteEvent t i =>
      exfalso
      rcases stage2MutOps_provenance tmin tmax snapshot M _ hcm with ⟨u, hu, hcu⟩ | ⟨kg, hkg, hcseg⟩
      · simp only [Call.deleteEvent.injEq] at hcu
        have huid : u.id = e.id := by
          have : i = e.id := by simpa [opTarget?] using hct
          rw [← hcu.2, this]
        have humem : u ∈ snapshot := List.mem_of_mem_filter hu
        have hue : u = e := eq_of_ids_nodup snapshot hids u e humem he huid
        have hut : getWorkID u = "" := by simpa using List.of_mem_filter hu
        exact ht (hue ▸ hut)
      · rcases groupSegment_delete_shape tmin tmax M kg t i hcseg with ⟨hlnone, himem⟩
        have hi : i = e.id := by simpa [opTarget?] using hct
        rcases List.mem_map.mp himem with ⟨x, hx, hxid⟩
        have hxmem : x ∈ snapshot := ((groupByWorkID_sound snapshot kg hkg).2.2 x hx).2
        have hxe : x = e := eq_of_ids_nodup snapshot hids x e hxmem he (by rw [hxid, hi])
        have hxkey : getWorkID x = kg.1 := ((groupByWorkID_sound snapshot kg hkg).2.2 x hx).1
        rw [hxe] at hxkey
        rw [hxkey] at hl
        rw [hl] at hlnone
        exact absurd hlnone (by simp)
    | updateEvent t i new =>
      refine ⟨{ new with id := e.id }, ?_, ?_⟩
      · unfold applyOp
        rw [hfind]
      · rcases stage2MutOps_provenance tmin tmax snapshot M _ hcm with ⟨u, _, hcu⟩ | ⟨kg, hkg, hcseg⟩
        · simp at hcu
        · rcases groupSegment_update_shape tmin tmax M kg t i new hcseg with ⟨src2, hlsome, hnew, hi⟩
          have hne : kg.2 ≠ [] := (groupByWorkID_sound snapshot kg hkg).1
          have hrep := repOf_mem tmin tmax kg.2 hne
          have hrepmem : repOf tmin tmax kg.2 ∈ snapshot :=
            ((groupByWorkID_sound snapshot kg hkg).2.2 _ hrep).2
          have hrepid : (repOf tmin tmax kg.2).id = e.id := by
            have hie : i = e.id := by simpa [opTarget?] using hct
            rw [← hi, hie]
          have hrepe : repOf tmin tmax kg.2 = e :=
            eq_of_ids_nodup snapshot hids _ e hrepmem he hrepid
          have hrepkey : getWorkID (repOf tmin tmax kg.2) = kg.1 :=
            ((groupByWorkID_sound snapshot kg hkg).2.2 _ hrep).1
          rw [hrepe] at hrepkey
          have hsrc2id : src2.id = kg.1 :=
            hMids (kg.1, src2) (smapLookup_mem M kg.1 src2 hlsome)
          rw [getWorkID_set_id, hnew, getWorkID_prepare, hsrc2id, ← hrepkey]
    | insertEvent t x => simp [opTarget?] at hct
    | getEvents t => simp [opTarget?] at hct
    | getEvent t i => simp [opTarget?] at hct
    | findEventsByWorkID t k => simp [opTarget?] at hct
    | findOrCreateCalendar t => simp [opTarget?] at hct

/-! ## Counting events per tracking key -/

theorem countKey_append (K : String) (l1 l2 : List Event) :
    countKey K (l1 ++ l2) = countKey K l1 + countKey K l2 := by
  simp [countKey, List.filter_append]

theorem countKey_cons (K : String) (a : Event) (l : List Event) :
    countKey K (a :: l) =
      (if getWorkID a = K then 1 else 0) + countKey K l := by
  by_cases h : getWorkID a = K <;> simp [countKey, List.filter_cons, h, Nat.add_comm]

theorem countKey_filterMap_pres (K : String) (f : Event → Option Event)
    (l : List Event)
    (h : ∀ e ∈ l, (getWorkID e = K → ∃ e2, f e = some e2 ∧ getWorkID e2 = K) ∧
      (getWorkID e ≠ K → f e = none ∨ ∃ e2, f e = some e2 ∧ getWorkID e2 ≠ K)) :
    countKey K (l.filterMap f) = countKey K l := by
  induction l with
  | nil => rfl
  | cons a rest ih =>
    have hrest := ih (fun e he => h e (by simp [he]))
    rw [countKey_cons]
    by_cases hk : getWorkID a = K
    · rcases (h a (by simp)).1 hk with ⟨e2, hfe, hke2⟩
      rw [List.filterMap_cons_some hfe, countKey_cons, hrest, hke2, if_pos rfl, if_pos hk]
    · rcases (h a (by simp)).2 hk with hfe | ⟨e2, hfe, hke2⟩
      · rw [List.filterMap_cons_none hfe, hrest, if_neg hk]
        simp
      · rw [List.filterMap_cons_some hfe, countKey_cons, hrest, if_neg hke2, if_neg hk]

theorem countKey_filterMap_zero (K : String) (f : Event → Option Event)
    (l : List Event)
    (h : ∀ e ∈ l, ∀ e2, f e = some e2 → getWorkID e2 ≠ K) :
    countKey K (l.filterMap f) = 0 := by
  induction l with
  | nil => rfl
  | cons a rest ih =>
    have hrest := ih (fun e he => h e (by simp [he]))
    cases hfe : f a with
    | none => rw [List.filterMap_cons_none hfe, hrest]
    | some e2 =>
      rw [List.filterMap_cons_some hfe, countKey_cons, hrest,
        if_neg (h a (by simp) e2 hfe)]

theorem countKey_map_prep (K : String) (rem : List (String × Event))
    (hids2 : ∀ kv ∈ rem, kv.2.id = kv.1) (h : ∀ kv ∈ rem, kv.1 ≠ K) :
    countKey K (rem.map (fun kv => prepareSyncEvent kv.2)) = 0 := by
  unfold countKey
  rw [List.filter_eq_nil_iff.mpr ?_]
  · rfl
  intro e he
  rcases List.mem_map.mp he with ⟨kv, hkv, rfl⟩
  simp only [getWorkID_prepare, hids2 kv hkv, decide_eq_true_eq]
  exact h kv hkv

theorem exists_key_of_countKey_pos (K : String) (l : List Event)
    (h : 0 < countKey K l) : ∃ e ∈ l, getWorkID e = K := by
  unfold countKey at h
  rcases List.exists_mem_of_length_pos h with ⟨e, he⟩
  exact ⟨e, List.mem_of_mem_filter he, by simpa using List.of_mem_filter he⟩

/-- The per-key count of destination events with a live source entry is
unchanged by a successful pass. -/
theorem countKey_after_pass (p : Params) (dest0 : List Event) (K : String)
    (hfind : p.findCalOk = true) (hsrc : p.sourceFetchOk = true)
    (hdst : p.destFetchOk = true) (hrem : p.reminder = none)
    (hgate : untaggedCount dest0 = 0 ∨
      promptForConfirmation p.interactive p.stdin = true)
    (hids : (idsOf dest0).Nodup) (hK : K ≠ "")
    (hsome : (smapLookup (smapOf p) K).isSome)
    (hpos : 0 < countKey K dest0) :
    (runSync p dest0 allOk).err = none ∧
    countKey K ((runSync p dest0 allOk).dest) = countKey K dest0 := by
  have hMids : ∀ kv ∈ smapOf p, kv.2.id = kv.1 :=
    fun kv hkv => (mkSourceMap_mem _ kv hkv).2
  have hDAR : destAfterReminder p dest0 allOk = dest0 := by
    unfold destAfterReminder
    rw [hrem]
    rfl
  have hgate2 : p.gateFetchOk = false ∨
      untaggedCount (destAfterReminder p dest0 allOk) = 0 ∨
      promptForConfirmation p.interactive p.stdin = true := by
    rw [hDAR]
    rcases hgate with h | h
    · exact Or.inr (Or.inl h)
    · exact Or.inr (Or.inr h)
  rw [runSync_success p dest0 allOk hfind hsrc hdst hgate2]
  refine ⟨rfl, ?_⟩
  show countKey K (applyPlan allOk _ _ _).1 = _
  rw [applyPlan_fst_allOk, hDAR]
  rw [stage2_apply _ _ dest0 (smapOf p) hids hMids]
  rw [countKey_append]
  have hKgrp : K ∈ (groupByWorkID dest0).map Prod.fst := by
    rcases exists_key_of_countKey_pos K dest0 hpos with ⟨e, he, hke⟩
    rw [← hke]
    exact mem_groupKeys_of_tagged dest0 e he (by rw [hke]; exact hK)
  have hrem2 : (groupsPlan (timeMinD p).instant (timeMaxD p).instant (smapOf p)
      (groupByWorkID dest0)).2
      = (smapOf p).filter (fun kv => !(kv.1 ∈ (groupByWorkID dest0).map Prod.fst)) :=
    groupsPlan_smap _ _ _ (smapOf p) (groupKeys_nodup dest0)
  have hB : countKey K ((groupsPlan (timeMinD p).instant (timeMaxD p).instant (smapOf p)
      (groupByWorkID dest0)).2.map (fun kv => prepareSyncEvent kv.2)) = 0 := by
    apply countKey_map_prep
    · intro kv hkv
      rw [hrem2] at hkv
      exact hMids kv (List.mem_of_mem_filter hkv)
    · intro kv hkv
      rw [hrem2] at hkv
      have hnot := List.of_mem_filter hkv
      intro habs
      rw [habs] at hnot
      simp [hKgrp] at hnot
  rw [hB]
  have hA : countKey K (dest0.filterMap
      (applyOp (stage2MutOps (timeMinD p).instant (timeMaxD p).instant dest0 (smapOf p))))
      = countKey K dest0 := by
    apply countKey_filterMap_pres
    intro e he
    constructor
    · intro hke
      rcases Option.isSome_iff_exists.mp hsome with ⟨src, hlsrc⟩
      rcases applyOp_hit_some _ _ dest0 (smapOf p) hids hMids e src he
        (by rw [hke]; exact hK) (by rw [hke]; exact hlsrc) with ⟨e2, hap, hk2⟩
      exact ⟨e2, hap, by rw [hk2, hke]⟩
    · intro hke
      by_cases ht : getWorkID e = ""
      · exact Or.inl (applyOp_untagged_none _ _ dest0 (smapOf p) hids e he ht)
      · cases hl : smapLookup (smapOf p) (getWorkID e) with
        | none => exact Or.inl (applyOp_stale_none _ _ dest0 (smapOf p) hids e he ht hl)
        | some src =>
          rcases applyOp_hit_some _ _ dest0 (smapOf p) hids hMids e src he ht hl with
            ⟨e2, hap, hk2⟩
          exact Or.inr ⟨e2, hap, by rw [hk2]; exact hke⟩
  rw [hA]
  exact Nat.add_zero _

/-! ## The calls of every branch of a pass -/

theorem reminderPlan_shape (dest0 : List Event) (r : Option Event) :
    ∀ c ∈ reminderPlan dest0 r,
      c = Call.findEventsByWorkID Target.personal "TOKEN_REFRESH_REMINDER" ∨
      (∃ e, c = Call.insertEvent Target.personal e) ∨
      (∃ i e, c = Call.updateEvent Target.personal i e) := by
  intro c hc
  cases r with
  | none => simp [reminderPlan] at hc
  | some rv =>
    simp only [reminderPlan] at hc
    rcases List.mem_cons.mp hc with h | h
    · exact Or.inl h
    · cases hfilt : dest0.filter (fun e => getWorkID e = "TOKEN_REFRESH_REMINDER") with
      | nil =>
        rw [hfilt] at h
        simp only [List.mem_singleton] at h
        exact Or.inr (Or.inl ⟨rv, h⟩)
      | cons e0 rest =>
        rw [hfilt] at h
        simp only [List.mem_singleton] at h
        exact Or.inr (Or.inr ⟨e0.id, rv, h⟩)

theorem runSync_findCal_fail (p : Params) (dest0 : List Event) (oracle : Nat → Bool)
    (hf : p.findCalOk = false) :
    runSync p dest0 oracle =
      { calls := [Call.findOrCreateCalendar Target.personal],
        dest := dest0, err := some "failed to resolve destination calendar" } := by
  unfold runSync
  rw [hf]
  rfl

theorem runSync_gate_refused (p : Params) (dest0 : List Event) (oracle : Nat → Bool)
    (hf : p.findCalOk = true)
    (hgR : (p.gateFetchOk &&
      decide (untaggedCount (destAfterReminder p dest0 oracle) > 0) &&
      !promptForConfirmation p.interactive p.stdin) = true) :
    runSync p dest0 oracle =
      { calls := [Call.findOrCreateCalendar Target.personal] ++
          reminderPlan dest0 p.reminder ++ [Call.getEvents Target.personal],
        dest := destAfterReminder p dest0 oracle,
        err := some "sync cancelled by user" } := by
  unfold runSync
  rw [hf]
  simp only [Bool.not_true, Bool.false_eq_true, if_false]
  rw [show (applyPlan oracle 0 dest0 (reminderPlan dest0 p.reminder)).1
      = destAfterReminder p dest0 oracle from rfl]
  rw [hgR]
  rfl

theorem runSync_source_fail (p : Params) (dest0 : List Event) (oracle : Nat → Bool)
    (hf : p.findCalOk = true)
    (hgR : (p.gateFetchOk &&
      decide (untaggedCount (destAfterReminder p dest0 oracle) > 0) &&
      !promptForConfirmation p.interactive p.stdin) = false)
    (hs : p.sourceFetchOk = false) :
    runSync p dest0 oracle =
      { calls := [Call.findOrCreateCalendar Target.personal] ++
          reminderPlan dest0 p.reminder ++ [Call.getEvents Target.personal] ++
          [Call.getEvents Target.work],
        dest := destAfterReminder p dest0 oracle,
        err := some "failed to fetch source events" } := by
  unfold runSync
  rw [hf]
  simp only [Bool.not_true, Bool.false_eq_true, if_false]
  rw [show (applyPlan oracle 0 dest0 (reminderPlan dest0 p.reminder)).1
      = destAfterReminder p dest0 oracle from rfl]
  rw [hgR]
  simp only [Bool.false_eq_true, if_false]
  rw [hs]
  rfl

theorem runSync_dest_fail (p : Params) (dest0 : List Event) (oracle : Nat → Bool)
    (hf : p.findCalOk = true)
    (hgR : (p.gateFetchOk &&
      decide (untaggedCount (destAfterReminder p dest0 oracle) > 0) &&
      !promptForConfirmation p.interactive p.stdin) = false)
    (hs : p.sourceFetchOk = true) (hd : p.destFetchOk = false) :
    runSync p dest0 oracle =
      { calls := [Call.findOrCreateCalendar Target.personal] ++
          reminderPlan dest0 p.reminder ++ [Call.getEvents Target.personal] ++
          [Call.getEvents Target.work] ++ parentLookupCalls p.workEvents ++
          [Call.getEvents Target.personal],
        dest := destAfterReminder p dest0 oracle,
        err := some "failed to fetch destination events" } := by
  unfold runSync
  rw [hf]
  simp only [Bool.not_true, Bool.false_eq_true, if_false]
  rw [show (applyPlan oracle 0 dest0 (reminderPlan dest0 p.reminder)).1
      = destAfterReminder p dest0 oracle from rfl]
  rw [hgR]
  simp only [Bool.false_eq_true, if_false]
  rw [hs]
  simp only [Bool.not_true, Bool.false_eq_true, if_false]
  rw [hd]
  rfl

theorem gate_passed_cases (p : Params) (dest0 : List Event) (oracle : Nat → Bool)
    (hgR : (p.gateFetchOk &&
      decide (untaggedCount (destAfterReminder p dest0 oracle) > 0) &&
      !promptForConfirmation p.interactive p.stdin) = false) :
    p.gateFetchOk = false ∨
    untaggedCount (destAfterReminder p dest0 oracle) = 0 ∨
    promptForConfirmation p.interactive p.stdin = true := by
  cases hgf : p.gateFetchOk with
  | false => exact Or.inl rfl
  | true =>
    rcases Nat.eq_zero_or_pos (untaggedCount (destAfterReminder p dest0 oracle)) with h2 | h2
    · exact Or.inr (Or.inl h2)
    · cases hpc : promptForConfirmation p.interactive p.stdin with
      | true => exact Or.inr (Or.inr rfl)
      | false =>
        rw [hgf, hpc] at hgR
        simp [h2] at hgR

/-- Every call a pass issues, whatever branch it takes, is of one of six
kinds. -/
theorem runSync_calls_cases (p : Params) (dest0 : List Event) (oracle : Nat → Bool) :
    ∀ c ∈ (runSync p dest0 oracle).calls,
      c = Call.findOrCreateCalendar Target.personal ∨
      c ∈ reminderPlan dest0 p.reminder ∨
      c = Call.getEvents Target.personal ∨
      c = Call.getEvents Target.work ∨
      c ∈ parentLookupCalls p.workEvents ∨
      c ∈ stage2Plan (timeMinD p).instant (timeMaxD p).instant
          (destAfterReminder p dest0 oracle) (smapOf p) := by
  intro c hc
  cases hf : p.findCalOk with
  | false =>
    rw [runSync_findCal_fail p dest0 oracle hf] at hc
    simp only [List.mem_singleton] at hc
    exact Or.inl hc
  | true =>
    cases hgR : (p.gateFetchOk &&
        decide (untaggedCount (destAfterReminder p dest0 oracle) > 0) &&
        !promptForConfirmation p.interactive p.stdin) with
    | true =>
      rw [runSync_gate_refused p dest0 oracle hf hgR] at hc
      rcases List.mem_append.mp hc with h | h
      swap
      · exact Or.inr (Or.inr (Or.inl (List.mem_singleton.mp h)))
      rcases List.mem_append.mp h with h | h
      · exact Or.inl (List.mem_singleton.mp h)
      · exact Or.inr (Or.inl h)
    | false =>
      cases hs : p.sourceFetchOk with
      | false =>
        rw [runSync_source_fail p dest0 oracle hf hgR hs] at hc
        rcases List.mem_append.mp hc with h | h
        swap
        · exact Or.inr (Or.inr (Or.inr (Or.inl (List.mem_singleton.mp h))))
        rcases List.mem_append.mp h with h | h
        swap
        · exact Or.inr (Or.inr (Or.inl (List.mem_singleton.mp h)))
        rcases List.mem_append.mp h with h | h
        · exact Or.inl (List.mem_singleton.mp h)
        · exact Or.inr (Or.inl h)
      | true =>
        cases hd : p.destFetchOk with
        | false =>
          rw [runSync_dest_fail p dest0 oracle hf hgR hs hd] at hc
          rcases List.mem_append.mp hc with h | h
          swap
          · exact Or.inr (Or.inr (Or.inl (List.mem_singleton.mp h)))
          rcases List.mem_append.mp h with h | h
          swap
          · exact Or.inr (Or.inr (Or.inr (Or.inr (Or.inl h))))
          rcases List.mem_append.mp h with h | h
          swap
          · exact Or.inr (Or.inr (Or.inr (Or.inl (List.mem_singleton.mp h))))
          rcases List.mem_append.mp h with h | h
          swap
          · exact Or.inr (Or.inr (Or.inl (List.mem_singleton.mp h)))
          rcases List.mem_append.mp h with h | h
          · exact Or.inl (List.mem_singleton.mp h)
          · exact Or.inr (Or.inl h)
        | true =>
          rw [runSync_success p dest0 oracle hf hs hd
            (gate_passed_cases p dest0 oracle hgR)] at hc
          rcases List.mem_append.mp hc with h | h
          swap
          · exact Or.inr (Or.inr (Or.inr (Or.inr (Or.inr h))))
          rcases List.mem_append.mp h with h | h
          swap
          · exact Or.inr (Or.inr (Or.inl (List.mem_singleton.mp h)))
          rcases List.mem_append.mp h with h | h
          swap
          · exact Or.inr (Or.inr (Or.inr (Or.inr (Or.inl h))))
          rcases List.mem_append.mp h with h | h
          swap
          · exact Or.inr (Or.inr (Or.inr (Or.inl (List.mem_singleton.mp h))))
          rcases List.mem_append.mp h with h | h
          swap
          · exact Or.inr (Or.inr (Or.inl (List.mem_singleton.mp h)))
          rcases List.mem_append.mp h with h | h
          · exact Or.inl (List.mem_singleton.mp h)
          · exact Or.inr (Or.inl h)

/-! ## Targets and shapes of the plan segments -/

theorem groupSegment_target (tmin tmax : Int) (M : List (String × Event))
    (kg : String × List Event) :
    ∀ c ∈ groupSegment tmin tmax M kg, c.target = Target.personal := by
  intro c hc
  cases hl : smapLookup M kg.1 with
  | some src =>
    rw [groupSegment_eq_some tmin tmax M kg src hl] at hc
    by_cases heq : eventsEqual (repOf tmin tmax kg.2) (prepareSyncEvent src)
    · rw [if_pos heq] at hc
      simp at hc
    · rw [if_neg heq] at hc
      obtain rfl := List.mem_singleton.mp hc
      rfl
  | none =>
    rw [groupSegment_eq_none tmin tmax M kg hl] at hc
    rcases List.mem_map.mp hc with ⟨x, _, rfl⟩
    rfl

theorem newEntryPlan_target (gs : List (String × List Event)) (src : Event) :
    ∀ c ∈ newEntryPlan gs src, c.target = Target.personal := by
  intro c hc
  simp only [newEntryPlan] at hc
  cases hlg : lookupGroups gs (getWorkID (prepareSyncEvent src)) with
  | nil =>
    rw [hlg] at hc
    obtain rfl := List.mem_singleton.mp hc
    rfl
  | cons e0 rest =>
    cases rest with
    | nil =>
      rw [hlg] at hc
      obtain rfl := List.mem_singleton.mp hc
      rfl
    | cons e1 rest2 =>
      rw [hlg] at hc
      rcases List.mem_append.mp hc with h | h
      · rcases List.mem_map.mp h with ⟨x, _, rfl⟩
        rfl
      · obtain rfl := List.mem_singleton.mp h
        rfl

theorem stage2Plan_target_personal (tmin tmax : Int) (snapshot : List Event)
    (M : List (String × Event)) :
    ∀ c ∈ stage2Plan tmin tmax snapshot M, c.target = Target.personal := by
  intro c hc
  rw [stage2Plan_decomp] at hc
  rcases List.mem_append.mp hc with h | h
  · rcases stage2MutOps_provenance tmin tmax snapshot M c h with ⟨u, _, rfl⟩ | ⟨kg, _, hcseg⟩
    · rfl
    · exact groupSegment_target tmin tmax M kg c hcseg
  · rcases List.mem_flatMap.mp h with ⟨kv, _, hce⟩
    exact newEntryPlan_target (groupByWorkID snapshot) kv.2 c hce

theorem reminderPlan_target (dest0 : List Event) (r : Option Event) :
    ∀ c ∈ reminderPlan dest0 r, c.target = Target.personal := by
  intro c hc
  rcases reminderPlan_shape dest0 r c hc with h | ⟨e, h⟩ | ⟨i, e, h⟩ <;> rw [h] <;> rfl

/-! ## Delete calls per target id -/

theorem deleteCallsFor_append (id : String) (l1 l2 : List Call) :
    deleteCallsFor id (l1 ++ l2) = deleteCallsFor id l1 ++ deleteCallsFor id l2 := by
  simp [deleteCallsFor, List.filter_append]

theorem deleteCallsFor_eq_nil (id : String) (calls : List Call)
    (h : ∀ t i, Call.deleteEvent t i ∈ calls → ¬ i = id) :
    deleteCallsFor id calls = [] := by
  unfold deleteCallsFor
  rw [List.filter_eq_nil_iff.mpr ?_]
  intro c hc
  cases c with
  | deleteEvent t i => simpa using h t i hc
  | insertEvent t e => simp
  | updateEvent t i e => simp
  | getEvents t => simp
  | getEvent t i => simp
  | findEventsByWorkID t k => simp
  | findOrCreateCalendar t => simp

/-! ## The claims -/

/-- C5: the Window Calculator guarantee.  For every clock reading and all
week settings, `timeMin` is the local-time Monday midnight of the current
week shifted back `7 * weeksPast` days (and always falls on a Monday), and
`timeMax` is the current week's Monday plus `7 * weeksForward - 1` days at
23:59:59 local time (and always falls on a Sunday). -/
theorem window_calculator (p : Params) :
    (timeMinD p).day = startOfCurrentWeek p.nowDay - 7 * p.weeksPast ∧
    goWeekday (timeMinD p).day = 1 ∧
    (timeMinD p).hour = 0 ∧ (timeMinD p).minute = 0 ∧ (timeMinD p).second = 0 ∧
    (timeMaxD p).day = startOfCurrentWeek p.nowDay + 7 * p.weeksForward - 1 ∧
    goWeekday (timeMaxD p).day = 0 ∧
    (timeMaxD p).hour = 23 ∧ (timeMaxD p).minute = 59 ∧ (timeMaxD p).second = 59 := by
  have h1 : goWeekday (startOfCurrentWeek p.nowDay - 7 * p.weeksPast) = 1 := by
    unfold startOfCurrentWeek daysFromMonday goWeekday
    by_cases h : p.nowDay % 7 = 0
    · rw [if_pos h]
      omega
    · rw [if_neg h]
      omega
  have h2 : goWeekday (startOfCurrentWeek p.nowDay + 7 * p.weeksForward - 1) = 0 := by
    unfold startOfCurrentWeek daysFromMonday goWeekday
    by_cases h : p.nowDay % 7 = 0
    · rw [if_pos h]
      omega
    · rw [if_neg h]
      omega
  exact ⟨rfl, h1, rfl, rfl, rfl, rfl, h2, rfl, rfl, rfl⟩

/-- The timed out-of-office rule exactly as the specification words it: in
precedence order, (a) the event's own OOF type flag, (b) the recurrence
parent's OOF type flag when the event is a recurring instance and the
lookup succeeds, (c) the parent's transparency flag, (d) the event's own
transparency flag, (e) a title keyword match; a failed parent lookup falls
through to the later rules. -/
def oofSpecRule (e : Event) (client : ParentLookup) : Bool :=
  let keywords : Bool :=
    ["out of office", "oof", "pto", "vacation", "away"].any
      (fun kw => strContains (strToLower e.summary) kw)
  if e.eventType = "outOfOffice" then true
  else if e.recurringEventId ≠ "" then
    match client e.recurringEventId with
    | some parent =>
      if parent.eventType = "outOfOffice" then true
      else if parent.transparency = "transparent" then true
      else if e.transparency = "transparent" then true
      else keywords
    | none =>
      if e.transparency = "transparent" then true
      else keywords
  else if e.transparency = "transparent" then true
  else keywords

/-- C4: the code's out-of-office exclusion test agrees with the
specification's ordered first-positive-match rule on every event and every
parent-lookup behaviour, including failed lookups. -/
theorem oof_precedence (e : Event) (client : ParentLookup) :
    isOutOfOffice e client = oofSpecRule e client := by
  unfold isOutOfOffice oofSpecRule
  by_cases h1 : e.eventType = "outOfOffice"
  · simp only [if_pos h1]
  · simp only [if_neg h1]
    by_cases h2 : e.recurringEventId ≠ ""
    · simp only [if_pos h2]
      cases hc : client e.recurringEventId with
      | none =>
        simp
      | some parent =>
        by_cases h3 : parent.eventType = "outOfOffice"
        · simp [h3]
        · by_cases h4 : parent.transparency = "transparent"
          · simp [h3, h4]
          · simp [h3, h4]
    · simp only [if_neg h2]
      simp

/-- C3: the filter's boundary examples behave as specified (a 05:00–05:30
event is dropped, a 05:30–06:30 event is kept), but a timed event starting
before 06:00 and ending at midnight — which the "spans the entire window"
disjunct of the specified rule keeps — is dropped by the code: its end
minutes-since-midnight is 0, and the code's third disjunct compares that
value (at most 1439) strictly against 1440, so the disjunct can never
fire. -/
theorem filter_overnight_dropped :
    filterEvents (fun _ => none)
      [{ summary := "Overnight",
         start := some (.dateTime "2025-01-06T05:00:00Z" ⟨1, 5, 0, 0, 0⟩),
         stop := some (.dateTime "2025-01-07T00:00:00Z" ⟨2, 0, 0, 0, 0⟩) },
       { summary := "Early",
         start := some (.dateTime "2025-01-06T05:00:00Z" ⟨1, 5, 0, 0, 0⟩),
         stop := some (.dateTime "2025-01-06T05:30:00Z" ⟨1, 5, 30, 0, 0⟩) },
       { summary := "Morning",
         start := some (.dateTime "2025-01-06T05:30:00Z" ⟨1, 5, 30, 0, 0⟩),
         stop := some (.dateTime "2025-01-06T06:30:00Z" ⟨1, 6, 30, 0, 0⟩) }]
    = [{ summary := "Morning",
         start := some (.dateTime "2025-01-06T05:30:00Z" ⟨1, 5, 30, 0, 0⟩),
         stop := some (.dateTime "2025-01-06T06:30:00Z" ⟨1, 6, 30, 0, 0⟩) }] := by
  decide

/-- C9: source read-only invariant.  In every execution of a pass — all
flag, reminder, input and mutation-failure combinations — every call issued
on the work (source) client is a read; no insert, update, delete or
calendar-creation call ever targets the source calendar. -/
theorem source_read_only (p : Params) (dest0 : List Event) (oracle : Nat → Bool) :
    ∀ c ∈ (runSync p dest0 oracle).calls,
      c.target = Target.work → c.isRead = true := by
  intro c hc hct
  rcases runSync_calls_cases p dest0 oracle c hc with h | h | h | h | h | h
  · rw [h] at hct
    exact absurd hct (by decide)
  · rw [reminderPlan_target dest0 p.reminder c h] at hct
    exact absurd hct (by decide)
  · rw [h] at hct
    exact absurd hct (by decide)
  · rw [h]
    rfl
  · rcases parentLookupCalls_shape p.workEvents c h with ⟨i, rfl⟩
    rfl
  · rw [stage2Plan_target_personal _ _ _ _ c h] at hct
    exact absurd hct (by decide)

theorem source_read_only_witness :
    Call.getEvents Target.work ∈
      (runSync { workEvents := [], parent := fun _ => none } [] allOk).calls ∧
    (Call.getEvents Target.work).target = Target.work ∧
    (Call.getEvents Target.work).isRead = true :=
  ⟨by decide, rfl,
    source_read_only { workEvents := [], parent := fun _ => none } [] allOk
      (Call.getEvents Target.work) (by decide) rfl⟩

/-- C8: per-event failure tolerance.  Under the conditions in which a pass
reaches its mutation phase (calendar resolution and fetches succeed, no
token reminder due, safety gate passed), the pass returns success for
every pattern of individual insert/update/delete failures, and it issues
exactly the same calls as when every mutation succeeds: a failed mutation
is skipped and the pass continues with the next event, with no rollback
and no abort. -/
theorem mutation_failure_tolerated (p : Params) (dest0 : List Event)
    (hfind : p.findCalOk = true) (hsrc : p.sourceFetchOk = true)
    (hdst : p.destFetchOk = true) (hrem : p.reminder = none)
    (hgate : untaggedCount dest0 = 0 ∨
      promptForConfirmation p.interactive p.stdin = true) :
    ∀ oracle : Nat → Bool,
      (runSync p dest0 oracle).err = none ∧
      (runSync p dest0 oracle).calls = (runSync p dest0 allOk).calls := by
  have hDAR : ∀ o : Nat → Bool, destAfterReminder p dest0 o = dest0 := by
    intro o
    unfold destAfterReminder
    rw [hrem]
    rfl
  have hg : ∀ o : Nat → Bool, p.gateFetchOk = false ∨
      untaggedCount (destAfterReminder p dest0 o) = 0 ∨
      promptForConfirmation p.interactive p.stdin = true := by
    intro o
    rw [hDAR o]
    rcases hgate with h | h
    · exact Or.inr (Or.inl h)
    · exact Or.inr (Or.inr h)
  intro oracle
  rw [runSync_success p dest0 oracle hfind hsrc hdst (hg oracle),
    runSync_success p dest0 allOk hfind hsrc hdst (hg allOk)]
  refine ⟨rfl, ?_⟩
  show _ ++ _ = _ ++ _
  rw [hDAR oracle, hDAR allOk]

theorem mutation_failure_tolerated_witness :
    untaggedCount ([] : List Event) = 0 ∧
    ((runSync { workEvents := [], parent := fun _ => none } [] (fun _ => false)).err
        = none ∧
      (runSync { workEvents := [], parent := fun _ => none } [] (fun _ => false)).calls
        = (runSync { workEvents := [], parent := fun _ => none } [] allOk).calls) :=
  ⟨rfl, mutation_failure_tolerated { workEvents := [], parent := fun _ => none } []
    rfl rfl rfl rfl (Or.inl rfl) (fun _ => false)⟩

/-- C7 counterexample: the claim says no execution of `Sync` deletes a
destination event without the untagged-event check having run and either
found zero untagged events or obtained confirmation, including when the
gate's own fetch of destination events fails.  In the code a failed gate
fetch is only logged and the pass continues: with the gate fetch failing,
a non-interactive pass over an empty source and a destination holding one
untagged event deletes that event and still returns success, although the
destination held one untagged event and no confirmation was given. -/
theorem gate_bypass_on_fetch_failure :
    (runSync { workEvents := [], parent := fun _ => none, gateFetchOk := false }
        [{ id := "u1" }] allOk).err = none ∧
    untaggedCount [({ id := "u1" } : Event)] = 1 ∧
    promptForConfirmation false none = false ∧
    deleteCallsFor "u1"
      ((runSync
          { workEvents := [], parent := fun _ => none, gateFetchOk := false }
          [{ id := "u1" }] allOk).calls)
      = [Call.deleteEvent Target.personal "u1"] := by
  decide

/-- C7 (amended): gate-before-delete ordering holds provided the gate's
own destination fetch succeeds: in any pass that issues some delete call,
the post-reminder destination contained zero untagged events or the
operator's confirmation was obtained. -/
theorem gate_before_delete (p : Params) (dest0 : List Event) (oracle : Nat → Bool)
    (hgatef : p.gateFetchOk = true) (t : Target) (i : String)
    (hdel : Call.deleteEvent t i ∈ (runSync p dest0 oracle).calls) :
    untaggedCount (destAfterReminder p dest0 oracle) = 0 ∨
    promptForConfirmation p.interactive p.stdin = true := by
  cases hf : p.findCalOk with
  | false =>
    rw [runSync_findCal_fail p dest0 oracle hf] at hdel
    exact absurd (List.mem_singleton.mp hdel) (by simp)
  | true =>
    cases hgR : (p.gateFetchOk &&
        decide (untaggedCount (destAfterReminder p dest0 oracle) > 0) &&
        !promptForConfirmation p.interactive p.stdin) with
    | false =>
      rcases gate_passed_cases p dest0 oracle hgR with h | h
      · rw [hgatef] at h
        exact absurd h (by simp)
      · exact h
    | true =>
      rw [runSync_gate_refused p dest0 oracle hf hgR] at hdel
      exfalso
      rcases List.mem_append.mp hdel with h | h
      swap
      · exact absurd (List.mem_singleton.mp h) (by simp)
      rcases List.mem_append.mp h with h | h
      · exact absurd (List.mem_singleton.mp h) (by simp)
      · rcases reminderPlan_shape dest0 p.reminder _ h with hsh | ⟨e, hsh⟩ | ⟨i2, e, hsh⟩ <;>
          exact Call.noConfusion hsh

theorem gate_before_delete_witness :
    Call.deleteEvent Target.personal "e1" ∈
      (runSync { workEvents := [], parent := fun _ => none }
        [{ id := "e1", extendedPrivate := some [("workEventId", "K")] }] allOk).calls ∧
    (untaggedCount (destAfterReminder { workEvents := [], parent := fun _ => none }
        [{ id := "e1", extendedPrivate := some [("workEventId", "K")] }] allOk) = 0 ∨
      promptForConfirmation false none = true) :=
  ⟨by decide,
    gate_before_delete { workEvents := [], parent := fun _ => none }
      [{ id := "e1", extendedPrivate := some [("workEventId", "K")] }] allOk rfl
      Target.personal "e1" (by decide)⟩

/-- C6: the untagged-event gate outcome.  With the gate fetch succeeding,
exactly one untagged destination event and no reminder due: a
non-interactive pass aborts with the cancellation error and issues zero
mutation calls (in particular zero deletes), while a pass in which the
confirmation prompt succeeds (interactive, operator answers yes) returns
success and issues exactly one delete call for the untagged event. -/
theorem untagged_gate_outcome (p : Params) (dest0 : List Event) (u : Event)
    (oracle : Nat → Bool)
    (hfind : p.findCalOk = true) (hsrc : p.sourceFetchOk = true)
    (hdst : p.destFetchOk = true) (hrem : p.reminder = none)
    (hgatef : p.gateFetchOk = true)
    (huntag : untaggedOf dest0 = [u]) (hids : (idsOf dest0).Nodup) :
    (p.interactive = false →
      (runSync p dest0 oracle).err = some "sync cancelled by user" ∧
      mutationCalls ((runSync p dest0 oracle).calls) = []) ∧
    (promptForConfirmation p.interactive p.stdin = true →
      (runSync p dest0 oracle).err = none ∧
      deleteCallsFor u.id ((runSync p dest0 oracle).calls)
        = [Call.deleteEvent Target.personal u.id]) := by
  have hDAR : destAfterReminder p dest0 oracle = dest0 := by
    unfold destAfterReminder
    rw [hrem]
    rfl
  have humem : u ∈ dest0 := by
    have hu2 : u ∈ untaggedOf dest0 := by
      rw [huntag]
      exact List.mem_singleton.mpr rfl
    exact List.mem_of_mem_filter hu2
  have hukey : getWorkID u = "" := by
    have hu2 : u ∈ untaggedOf dest0 := by
      rw [huntag]
      exact List.mem_singleton.mpr rfl
    simpa using List.of_mem_filter hu2
  constructor
  · intro hint
    have hprompt : promptForConfirmation p.interactive p.stdin = false := by
      simp [promptForConfirmation, hint]
    have hu1 : untaggedCount (destAfterReminder p dest0 oracle) = 1 := by
      rw [hDAR]
      unfold untaggedCount
      rw [huntag]
      rfl
    have hgR : (p.gateFetchOk &&
        decide (untaggedCount (destAfterReminder p dest0 oracle) > 0) &&
        !promptForConfirmation p.interactive p.stdin) = true := by
      rw [hgatef, hu1, hprompt]
      rfl
    rw [runSync_gate_refused p dest0 oracle hfind hgR]
    refine ⟨rfl, ?_⟩
    show mutationCalls ([Call.findOrCreateCalendar Target.personal] ++
      reminderPlan dest0 p.reminder ++ [Call.getEvents Target.personal]) = []
    rw [hrem]
    rfl
  · intro hyes
    rw [runSync_success p dest0 oracle hfind hsrc hdst (Or.inr (Or.inr hyes))]
    refine ⟨rfl, ?_⟩
    show deleteCallsFor u.id (_ ++ stage2Plan _ _ _ _) = _
    rw [hDAR, deleteCallsFor_append]
    have hpre : deleteCallsFor u.id
        (([Call.findOrCreateCalendar Target.personal] ++
          reminderPlan dest0 p.reminder ++ [Call.getEvents Target.personal] ++
          [Call.getEvents Target.work]) ++
          parentLookupCalls p.workEvents ++ [Call.getEvents Target.personal]) = [] := by
      rw [hrem, deleteCallsFor_append, deleteCallsFor_append]
      have h2 : deleteCallsFor u.id (parentLookupCalls p.workEvents) = [] := by
        apply deleteCallsFor_eq_nil
        intro t i hmem
        rcases parentLookupCalls_shape p.workEvents _ hmem with ⟨x, hx⟩
        exact Call.noConfusion hx
      rw [h2]
      rfl
    rw [hpre]
    show deleteCallsFor u.id (stage2Plan (timeMinD p).instant (timeMaxD p).instant
      dest0 (smapOf p)) = _
    rw [stage2Plan_decomp, deleteCallsFor_append]
    have hnew : deleteCallsFor u.id
        (newPlan (groupByWorkID dest0)
          (groupsPlan (timeMinD p).instant (timeMaxD p).instant (smapOf p)
            (groupByWorkID dest0)).2) = [] := by
      rw [newPlan_all_inserts _ _ ?h1 ?h2]
      · apply deleteCallsFor_eq_nil
        intro t i hmem
        rcases List.mem_map.mp hmem with ⟨kv, _, heq⟩
        exact Call.noConfusion heq.symm
      case h1 =>
        intro kv hkv
        rw [groupsPlan_smap _ _ _ (smapOf p) (groupKeys_nodup dest0)] at hkv
        exact (mkSourceMap_mem _ kv (List.mem_of_mem_filter hkv)).2
      case h2 =>
        intro kv hkv
        rw [groupsPlan_smap _ _ _ (smapOf p) (groupKeys_nodup dest0)] at hkv
        simpa using List.of_mem_filter hkv
    rw [hnew]
    have hmut : deleteCallsFor u.id
        (stage2MutOps (timeMinD p).instant (timeMaxD p).instant dest0 (smapOf p))
        = [Call.deleteEvent Target.personal u.id] := by
      unfold stage2MutOps
      rw [deleteCallsFor_append]
      have hud : deleteCallsFor u.id
          ((untaggedOf dest0).map (fun e => Call.deleteEvent Target.personal e.id))
          = [Call.deleteEvent Target.personal u.id] := by
        rw [huntag]
        simp [deleteCallsFor]
      have hgp : deleteCallsFor u.id
          ((groupsPlan (timeMinD p).instant (timeMaxD p).instant (smapOf p)
            (groupByWorkID dest0)).1) = [] := by
        apply deleteCallsFor_eq_nil
        intro t i hmem
        rw [groupsPlan_calls _ _ _ (smapOf p) (groupKeys_nodup dest0)] at hmem
        rcases List.mem_flatMap.mp hmem with ⟨kg, hkg, hseg⟩
        rcases groupSegment_delete_shape _ _ (smapOf p) kg t i hseg with ⟨_, himem⟩
        rcases List.mem_map.mp himem with ⟨x, hx, hxid⟩
        have hsound := groupByWorkID_sound dest0 kg hkg
        have hxmem : x ∈ dest0 := (hsound.2.2 x hx).2
        intro hiu
        have hxu : x = u := eq_of_ids_nodup dest0 hids x u hxmem humem (by rw [hxid, hiu])
        have hxkey : getWorkID x = kg.1 := (hsound.2.2 x hx).1
        rw [hxu, hukey] at hxkey
        exact hsound.2.1 hxkey.symm
      rw [hud, hgp]
      rfl
    rw [hmut]
    rfl

theorem untagged_gate_outcome_witness :
    untaggedOf [({ id := "u1" } : Event)] = [({ id := "u1" } : Event)] ∧
    ((({ workEvents := [], parent := fun _ => none, interactive := true, stdin := some "yes" } : Params).interactive = false →
      (runSync
          { workEvents := [], parent := fun _ => none, interactive := true, stdin := some "yes" }
          [{ id := "u1" }] allOk).err = some "sync cancelled by user" ∧
      mutationCalls ((runSync
          { workEvents := [], parent := fun _ => none, interactive := true, stdin := some "yes" }
          [{ id := "u1" }] allOk).calls) = []) ∧
    (promptForConfirmation true (some "yes") = true →
      (runSync
          { workEvents := [], parent := fun _ => none, interactive := true, stdin := some "yes" }
          [{ id := "u1" }] allOk).err = none ∧
      deleteCallsFor "u1" ((runSync
          { workEvents := [], parent := fun _ => none, interactive := true, stdin := some "yes" }
          [{ id := "u1" }] allOk).calls)
        = [Call.deleteEvent Target.personal "u1"])) :=
  ⟨by decide,
    untagged_gate_outcome
      { workEvents := [], parent := fun _ => none, interactive := true, stdin := some "yes" }
      [{ id := "u1" }] { id := "u1" } allOk
      rfl rfl rfl rfl rfl (by decide) (by decide)⟩

/-- C1 counterexample: a pass is not idempotent when a token reminder is
due.  With an empty source and an empty destination, the first pass
inserts the reminder and then — because its reserved tracking key is never
in the source index — stale-deletes it again (its id is empty, which the
delete matches), returning success with an unchanged destination; the
second pass, with the source still unchanged, issues the same insert and
delete again: two mutation calls instead of zero. -/
theorem sync_not_idempotent_with_reminder :
    (runSync
        { workEvents := [], parent := fun _ => none, reminder := some (mkReminderEvent "d" "s" "e" ⟨5, 9, 0, 0, 0⟩ ⟨5, 10, 0, 0, 0⟩) }
        [] allOk).err = none ∧
    (runSync
        { workEvents := [], parent := fun _ => none, reminder := some (mkReminderEvent "d" "s" "e" ⟨5, 9, 0, 0, 0⟩ ⟨5, 10, 0, 0, 0⟩) }
        ((runSync
          { workEvents := [], parent := fun _ => none, reminder := some (mkReminderEvent "d" "s" "e" ⟨5, 9, 0, 0, 0⟩ ⟨5, 10, 0, 0, 0⟩) }
          [] allOk).dest) allOk).err = none ∧
    mutationCalls ((runSync
        { workEvents := [], parent := fun _ => none, reminder := some (mkReminderEvent "d" "s" "e" ⟨5, 9, 0, 0, 0⟩ ⟨5, 10, 0, 0, 0⟩) }
        ((runSync
          { workEvents := [], parent := fun _ => none, reminder := some (mkReminderEvent "d" "s" "e" ⟨5, 9, 0, 0, 0⟩ ⟨5, 10, 0, 0, 0⟩) }
          [] allOk).dest) allOk).calls) ≠ [] := by
  decide

/-- C1 (amended): idempotence holds for reconciliation proper.  When no
token reminder is due, every source event has a non-empty id and a
well-formed end time, the destination snapshot has no duplicate ids and no
duplicate tracking keys, and the safety gate passes, a completed pass with
all mutations succeeding yields a destination on which a second pass with
the same source succeeds and issues zero insert, update or delete
calls. -/
theorem sync_idempotent (p : Params) (dest0 : List Event)
    (hfind : p.findCalOk = true) (hsrc : p.sourceFetchOk = true)
    (hdst : p.destFetchOk = true) (hrem : p.reminder = none)
    (hgate : untaggedCount dest0 = 0 ∨
      promptForConfirmation p.interactive p.stdin = true)
    (hids : (idsOf dest0).Nodup) (hkeys : (taggedKeys dest0).Nodup)
    (hsrcids : ∀ e ∈ p.workEvents, e.id ≠ "")
    (hstops : ∀ e ∈ p.workEvents, e.stop ≠ some EDT.empty) :
    (runSync p dest0 allOk).err = none ∧
    (runSync p ((runSync p dest0 allOk).dest) allOk).err = none ∧
    mutationCalls ((runSync p ((runSync p dest0 allOk).dest) allOk).calls) = [] := by
  have hconv := pass1_converged p dest0 hfind hsrc hdst hrem hgate hids hkeys hsrcids hstops
  have h2 := runSync_converged p ((runSync p dest0 allOk).dest) allOk hfind hsrc hdst hrem hconv
  refine ⟨?_, h2.1, h2.2⟩
  have hDAR : destAfterReminder p dest0 allOk = dest0 := by
    unfold destAfterReminder
    rw [hrem]
    rfl
  have hgate2 : p.gateFetchOk = false ∨
      untaggedCount (destAfterReminder p dest0 allOk) = 0 ∨
      promptForConfirmation p.interactive p.stdin = true := by
    rw [hDAR]
    rcases hgate with h | h
    · exact Or.inr (Or.inl h)
    · exact Or.inr (Or.inr h)
  rw [runSync_success p dest0 allOk hfind hsrc hdst hgate2]

theorem sync_idempotent_witness :
    (∀ e ∈ [({ id := "W1", summary := "m", start := some (EDT.dateTime "2025-01-08T10:00:00Z" ⟨3, 10, 0, 0, 0⟩), stop := some (EDT.dateTime "2025-01-08T11:00:00Z" ⟨3, 11, 0, 0, 0⟩) } : Event)],
      e.id ≠ "") ∧
    ((runSync
        { workEvents := [{ id := "W1", summary := "m", start := some (EDT.dateTime "2025-01-08T10:00:00Z" ⟨3, 10, 0, 0, 0⟩), stop := some (EDT.dateTime "2025-01-08T11:00:00Z" ⟨3, 11, 0, 0, 0⟩) }],
          parent := fun _ => none }
        [] allOk).err = none ∧
    (runSync
        { workEvents := [{ id := "W1", summary := "m", start := some (EDT.dateTime "2025-01-08T10:00:00Z" ⟨3, 10, 0, 0, 0⟩), stop := some (EDT.dateTime "2025-01-08T11:00:00Z" ⟨3, 11, 0, 0, 0⟩) }],
          parent := fun _ => none }
        ((runSync
          { workEvents := [{ id := "W1", summary := "m", start := some (EDT.dateTime "2025-01-08T10:00:00Z" ⟨3, 10, 0, 0, 0⟩), stop := some (EDT.dateTime "2025-01-08T11:00:00Z" ⟨3, 11, 0, 0, 0⟩) }],
            parent := fun _ => none }
          [] allOk).dest) allOk).err = none ∧
    mutationCalls ((runSync
        { workEvents := [{ id := "W1", summary := "m", start := some (EDT.dateTime "2025-01-08T10:00:00Z" ⟨3, 10, 0, 0, 0⟩), stop := some (EDT.dateTime "2025-01-08T11:00:00Z" ⟨3, 11, 0, 0, 0⟩) }],
          parent := fun _ => none }
        ((runSync
          { workEvents := [{ id := "W1", summary := "m", start := some (EDT.dateTime "2025-01-08T10:00:00Z" ⟨3, 10, 0, 0, 0⟩), stop := some (EDT.dateTime "2025-01-08T11:00:00Z" ⟨3, 11, 0, 0, 0⟩) }],
            parent := fun _ => none }
          [] allOk).dest) allOk).calls) = []) :=
  ⟨by decide,
    sync_idempotent
      { workEvents := [{ id := "W1", summary := "m", start := some (EDT.dateTime "2025-01-08T10:00:00Z" ⟨3, 10, 0, 0, 0⟩), stop := some (EDT.dateTime "2025-01-08T11:00:00Z" ⟨3, 11, 0, 0, 0⟩) }],
        parent := fun _ => none }
      [] rfl rfl rfl rfl (Or.inl rfl) (by decide) (by decide) (by decide) (by decide)⟩

/-- C2 counterexample: duplicates are not collapsed.  Two destination
events share tracking key `K`, the filtered source index contains `K`, all
mutations succeed — and the pass ends with the destination still holding
two events with key `K`: the group loop updates only the representative,
the extra group member is never touched, and the remaining-source loop
cannot revisit the consumed key. -/
theorem duplicates_survive_pass :
    (runSync
        { workEvents := [{ id := "K", summary := "Mtg", start := some (EDT.dateTime "2025-01-08T10:00:00Z" ⟨3, 10, 0, 0, 0⟩), stop := some (EDT.dateTime "2025-01-08T11:00:00Z" ⟨3, 11, 0, 0, 0⟩) }],
          parent := fun _ => none }
        [{ id := "a", extendedPrivate := some [("workEventId", "K")] },
         { id := "b", extendedPrivate := some [("workEventId", "K")] }] allOk).err
      = none ∧
    countKey "K" ((runSync
        { workEvents := [{ id := "K", summary := "Mtg", start := some (EDT.dateTime "2025-01-08T10:00:00Z" ⟨3, 10, 0, 0, 0⟩), stop := some (EDT.dateTime "2025-01-08T11:00:00Z" ⟨3, 11, 0, 0, 0⟩) }],
          parent := fun _ => none }
        [{ id := "a", extendedPrivate := some [("workEventId", "K")] },
         { id := "b", extendedPrivate := some [("workEventId", "K")] }] allOk).dest)
      = 2 := by
  decide

/-- C2 (amended): the per-key duplicate count is preserved, not collapsed.
When exactly two destination events share tracking key `K`, the filtered
source index contains `K`, the destination ids are unique, no reminder is
due and the gate passes, a pass with all mutations succeeding returns
success and the destination still holds exactly two events with key `K`. -/
theorem duplicate_count_preserved (p : Params) (dest0 : List Event) (K : String)
    (hfind : p.findCalOk = true) (hsrc : p.sourceFetchOk = true)
    (hdst : p.destFetchOk = true) (hrem : p.reminder = none)
    (hgate : untaggedCount dest0 = 0 ∨
      promptForConfirmation p.interactive p.stdin = true)
    (hids : (idsOf dest0).Nodup) (hK : K ≠ "")
    (hsome : (smapLookup (smapOf p) K).isSome = true)
    (h2 : countKey K dest0 = 2) :
    (runSync p dest0 allOk).err = none ∧
    countKey K ((runSync p dest0 allOk).dest) = 2 := by
  have h := countKey_after_pass p dest0 K hfind hsrc hdst hrem hgate hids hK hsome
    (by rw [h2]; omega)
  exact ⟨h.1, by rw [h.2, h2]⟩

theorem duplicate_count_preserved_witness :
    (smapLookup (smapOf
        { workEvents := [{ id := "K", summary := "Mtg", start := some (EDT.dateTime "2025-01-08T10:00:00Z" ⟨3, 10, 0, 0, 0⟩), stop := some (EDT.dateTime "2025-01-08T11:00:00Z" ⟨3, 11, 0, 0, 0⟩) }],
          parent := fun _ => none }) "K").isSome = true ∧
    countKey "K" [({ id := "a", extendedPrivate := some [("workEventId", "K")] } : Event),
      { id := "b", extendedPrivate := some [("workEventId", "K")] }] = 2 ∧
    ((runSync
        { workEvents := [{ id := "K", summary := "Mtg", start := some (EDT.dateTime "2025-01-08T10:00:00Z" ⟨3, 10, 0, 0, 0⟩), stop := some (EDT.dateTime "2025-01-08T11:00:00Z" ⟨3, 11, 0, 0, 0⟩) }],
          parent := fun _ => none }
        [{ id := "a", extendedPrivate := some [("workEventId", "K")] },
         { id := "b", extendedPrivate := some [("workEventId", "K")] }] allOk).err
      = none ∧
    countKey "K" ((runSync
        { workEvents := [{ id := "K", summary := "Mtg", start := some (EDT.dateTime "2025-01-08T10:00:00Z" ⟨3, 10, 0, 0, 0⟩), stop := some (EDT.dateTime "2025-01-08T11:00:00Z" ⟨3, 11, 0, 0, 0⟩) }],
          parent := fun _ => none }
        [{ id := "a", extendedPrivate := some [("workEventId", "K")] },
         { id := "b", extendedPrivate := some [("workEventId", "K")] }] allOk).dest)
      = 2) :=
  ⟨by decide, by decide,
    duplicate_count_preserved
      { workEvents := [{ id := "K", summary := "Mtg", start := some (EDT.dateTime "2025-01-08T10:00:00Z" ⟨3, 10, 0, 0, 0⟩), stop := some (EDT.dateTime "2025-01-08T11:00:00Z" ⟨3, 11, 0, 0, 0⟩) }],
        parent := fun _ => none }
      [{ id := "a", extendedPrivate := some [("workEventId", "K")] },
       { id := "b", extendedPrivate := some [("workEventId", "K")] }] "K"
      rfl rfl rfl rfl (Or.inl rfl) (by decide) (by decide) (by decide) (by decide)⟩

/-- C10: the token-expiry reminder does not survive the pass that upserts
it.  With a due reminder carrying the reserved key
`TOKEN_REFRESH_REMINDER` and no id, a destination initially holding no
event with the reserved key and no empty id, and a source index that never
contains the reserved key, the pass succeeds, the upsert leaves exactly one
reserved-key event on the destination, and the same pass's stale-deletion
branch removes it: the final destination holds zero reserved-key
events. -/
theorem reminder_does_not_survive (p : Params) (dest0 : List Event) (r : Event)
    (hfind : p.findCalOk = true) (hsrc : p.sourceFetchOk = true)
    (hdst : p.destFetchOk = true) (hremr : p.reminder = some r)
    (hrkey : getWorkID r = "TOKEN_REFRESH_REMINDER") (hrid : r.id = "")
    (hgate : untaggedCount dest0 = 0 ∨
      promptForConfirmation p.interactive p.stdin = true)
    (hids : (idsOf dest0).Nodup) (hnoempty : "" ∉ idsOf dest0)
    (hT0 : countKey "TOKEN_REFRESH_REMINDER" dest0 = 0)
    (hMT : ∀ kv ∈ smapOf p, kv.1 ≠ "TOKEN_REFRESH_REMINDER") :
    (runSync p dest0 allOk).err = none ∧
    countKey "TOKEN_REFRESH_REMINDER" (destAfterReminder p dest0 allOk) = 1 ∧
    countKey "TOKEN_REFRESH_REMINDER" ((runSync p dest0 allOk).dest) = 0 := by
  have hfilt : dest0.filter (fun e => getWorkID e = "TOKEN_REFRESH_REMINDER") = [] := by
    unfold countKey at hT0
    exact List.length_eq_zero.mp hT0
  have hDAR : destAfterReminder p dest0 allOk = dest0 ++ [r] := by
    unfold destAfterReminder
    rw [hremr]
    have hplan : reminderPlan dest0 (some r)
        = [Call.findEventsByWorkID Target.personal "TOKEN_REFRESH_REMINDER",
           Call.insertEvent Target.personal r] := by
      unfold reminderPlan
      rw [hfilt]
    rw [hplan]
    rfl
  have hcount1 : countKey "TOKEN_REFRESH_REMINDER" (destAfterReminder p dest0 allOk) = 1 := by
    rw [hDAR, countKey_append, hT0, countKey_cons, if_pos hrkey]
    rfl
  have huDAR : untaggedCount (destAfterReminder p dest0 allOk) = untaggedCount dest0 := by
    rw [hDAR]
    unfold untaggedCount untaggedOf
    rw [List.filter_append]
    have hone : [r].filter (fun e => decide (getWorkID e = "")) = [] := by
      simp [hrkey]
    rw [hone, List.append_nil]
  have hgate2 : p.gateFetchOk = false ∨
      untaggedCount (destAfterReminder p dest0 allOk) = 0 ∨
      promptForConfirmation p.interactive p.stdin = true := by
    rcases hgate with h | h
    · exact Or.inr (Or.inl (by rw [huDAR]; exact h))
    · exact Or.inr (Or.inr h)
  have hids1 : (idsOf (dest0 ++ [r])).Nodup := by
    unfold idsOf
    rw [List.map_append]
    apply nodup_append_singleton _ _ hids
    rw [hrid]
    exact hnoempty
  have hMids : ∀ kv ∈ smapOf p, kv.2.id = kv.1 :=
    fun kv hkv => (mkSourceMap_mem _ kv hkv).2
  rw [runSync_success p dest0 allOk hfind hsrc hdst hgate2]
  refine ⟨rfl, hcount1, ?_⟩
  show countKey _ (applyPlan allOk _ _ _).1 = 0
  rw [applyPlan_fst_allOk, hDAR]
  rw [stage2_apply _ _ (dest0 ++ [r]) (smapOf p) hids1 hMids]
  rw [countKey_append]
  have hB : countKey "TOKEN_REFRESH_REMINDER"
      (((groupsPlan (timeMinD p).instant (timeMaxD p).instant (smapOf p)
        (groupByWorkID (dest0 ++ [r]))).2).map (fun kv => prepareSyncEvent kv.2)) = 0 := by
    apply countKey_map_prep
    · intro kv hkv
      rw [groupsPlan_smap _ _ _ (smapOf p) (groupKeys_nodup _)] at hkv
      exact hMids kv (List.mem_of_mem_filter hkv)
    · intro kv hkv
      rw [groupsPlan_smap _ _ _ (smapOf p) (groupKeys_nodup _)] at hkv
      exact hMT kv (List.mem_of_mem_filter hkv)
  have hA : countKey "TOKEN_REFRESH_REMINDER"
      ((dest0 ++ [r]).filterMap (applyOp (stage2MutOps (timeMinD p).instant
        (timeMaxD p).instant (dest0 ++ [r]) (smapOf p)))) = 0 := by
    apply countKey_filterMap_zero
    intro e he e2 hap
    by_cases ht : getWorkID e = ""
    · rw [applyOp_untagged_none _ _ _ _ hids1 e he ht] at hap
      exact absurd hap (by simp)
    · cases hl : smapLookup (smapOf p) (getWorkID e) with
      | none =>
        rw [applyOp_stale_none _ _ _ _ hids1 e he ht hl] at hap
        exact absurd hap (by simp)
      | some src =>
        rcases applyOp_hit_some _ _ _ _ hids1 hMids e src he ht hl with ⟨e3, hap3, hk3⟩
        rw [hap3] at hap
        obtain rfl := Option.some.inj hap
        rw [hk3]
        intro habs
        rw [habs] at hl
        exact hMT ("TOKEN_REFRESH_REMINDER", src) (smapLookup_mem _ _ _ hl) rfl
  rw [hA, hB]

theorem reminder_does_not_survive_witness :
    getWorkID (mkReminderEvent "d" "s" "e" ⟨5, 9, 0, 0, 0⟩ ⟨5, 10, 0, 0, 0⟩)
      = "TOKEN_REFRESH_REMINDER" ∧
    ((runSync
        { workEvents := [], parent := fun _ => none, reminder := some (mkReminderEvent "d" "s" "e" ⟨5, 9, 0, 0, 0⟩ ⟨5, 10, 0, 0, 0⟩) }
        [] allOk).err = none ∧
    countKey "TOKEN_REFRESH_REMINDER" (destAfterReminder
        { workEvents := [], parent := fun _ => none, reminder := some (mkReminderEvent "d" "s" "e" ⟨5, 9, 0, 0, 0⟩ ⟨5, 10, 0, 0, 0⟩) }
        [] allOk) = 1 ∧
    countKey "TOKEN_REFRESH_REMINDER" ((runSync
        { workEvents := [], parent := fun _ => none, reminder := some (mkReminderEvent "d" "s" "e" ⟨5, 9, 0, 0, 0⟩ ⟨5, 10, 0, 0, 0⟩) }
        [] allOk).dest) = 0) :=
  ⟨by decide,
    reminder_does_not_survive
      { workEvents := [], parent := fun _ => none, reminder := some (mkReminderEvent "d" "s" "e" ⟨5, 9, 0, 0, 0⟩ ⟨5, 10, 0, 0, 0⟩) }
      [] (mkReminderEvent "d" "s" "e" ⟨5, 9, 0, 0, 0⟩ ⟨5, 10, 0, 0, 0⟩)
      rfl rfl rfl rfl (by decide) rfl (Or.inl rfl) (by decide) (by decide) rfl (by decide)⟩

end CalSync
